import Mathlib

/-!
Verification development for the dunamai version library
(src/dunamai/__init__.py).

Python strings are modelled as `List Char`; Python `int` as `Int` (or
`Nat` where the source guarantees non-negativity, e.g. regex `\d+`
captures); fallible Python code returns `Except PyError _`.

The regular expressions of the source are embedded as hand-written
matchers over `List Char`.  Wherever a greedy sub-pattern is embedded by
deterministic maximal munch instead of full backtracking, a comment
justifies that Python's backtracking engine can only succeed with the
maximal-munch split, so the embedding is extensionally equal to
`re.search`/`re.match` on the pattern in question.
-/

deriving instance DecidableEq for Except

namespace Dunamai

/-- Python exception kinds raised by the modelled code. -/
inductive PyError where
  | valueError
  | indexError
deriving DecidableEq, Repr

/-- `[0-9]` -/
def isDig (c : Char) : Bool := '0' ≤ c ∧ c ≤ '9'

/-- `[a-z]` -/
def isLow (c : Char) : Bool := 'a' ≤ c ∧ c ≤ 'z'

/-- `[A-Z]` -/
def isUpp (c : Char) : Bool := 'A' ≤ c ∧ c ≤ 'Z'

/-- `[a-zA-Z]` -/
def isAlpha (c : Char) : Bool := isLow c ∨ isUpp c

/-- `[a-zA-Z0-9]` -/
def isAlnum (c : Char) : Bool := isAlpha c ∨ isDig c

/-- `[\da-z]` (the character class of the commit sub-pattern). -/
def isLowAlnum (c : Char) : Bool := isDig c ∨ isLow c

/-- Greedy span: longest leading run satisfying `p`, plus the rest. -/
def spanP (p : Char → Bool) : List Char → List Char × List Char
  | [] => ([], [])
  | c :: cs =>
      if p c then
        let r := spanP p cs
        (c :: r.1, r.2)
      else ([], c :: cs)

/-- Decimal digits, least significant first, with structural fuel so the
definition reduces in the kernel.  `fuel ≥ n` always suffices. -/
def natDigitsRevFuel : Nat → Nat → List Nat
  | 0, n => [n]
  | fuel + 1, n => if n < 10 then [n] else n % 10 :: natDigitsRevFuel fuel (n / 10)

/-- Decimal digits of `n`, least significant first. -/
def natDigitsRev (n : Nat) : List Nat := natDigitsRevFuel n n

/-- Render one decimal digit. -/
def digChar (d : Nat) : Char := Char.ofNat (48 + d)

/-- Python `str` on a non-negative `int`: minimal decimal notation. -/
def natToChars (n : Nat) : List Char :=
  (natDigitsRev n).reverse.map digChar

/-- Python `str` on an `int`. -/
def intToChars (i : Int) : List Char :=
  if i < 0 then '-' :: natToChars (-i).toNat else natToChars i.toNat

/-- Numeric value of a digit string (assuming all characters are digits). -/
def charsToNat (cs : List Char) : Nat :=
  cs.foldl (fun a c => a * 10 + (c.toNat - 48)) 0

/-- ASCII whitespace stripped by Python `int()`. -/
def isPySpace (c : Char) : Bool :=
  c = ' ' ∨ c = '\t' ∨ c = '\n' ∨ c = '\r' ∨ c = '\x0b' ∨ c = '\x0c'

/-- Digit-with-underscore body of a Python `int()` literal: digits with
single underscores strictly between digits (underscores are dropped). -/
def pyIntDigits : List Char → Option (List Char)
  | [] => none
  | [c] => if isDig c then some [c] else none
  | c :: d :: rest =>
      if isDig c then
        if d = '_' then
          match rest with
          | [] => none
          | r :: _ => if isDig r then (pyIntDigits rest).map (c :: ·) else none
        else (pyIntDigits (d :: rest)).map (c :: ·)
      else none

/-- Python `int(s)` on a string: strips ASCII whitespace, allows one
sign, then digits with underscores between digits; anything else raises
`ValueError`. -/
def pyInt (cs : List Char) : Option Int :=
  let cs := (spanP isPySpace cs).2
  let cs := (spanP isPySpace cs.reverse).2.reverse
  match cs with
  | [] => none
  | c :: rest =>
      if c = '-' then (pyIntDigits rest).map (fun ds => -(charsToNat ds : Int))
      else if c = '+' then (pyIntDigits rest).map (fun ds => (charsToNat ds : Int))
      else (pyIntDigits (c :: rest)).map (fun ds => (charsToNat ds : Int))

/-- `"x".join(parts)` for a one-character separator. -/
def joinSep (sep : Char) : List (List Char) → List Char
  | [] => []
  | [p] => p
  | p :: rest => p ++ sep :: joinSep sep rest

/-- Python `s.split(sep)` for a one-character separator: splits at every
occurrence, keeping empty pieces (so `"a..b"` gives `["a", "", "b"]`). -/
def splitSep (sep : Char) : List Char → List (List Char)
  | [] => [[]]
  | c :: cs =>
      let r := splitSep sep cs
      if c = sep then [] :: r
      else
        match r with
        | [] => [[c]]
        | p :: ps => (c :: p) :: ps

/-- `re.split(r"[.-]", s)`: split at every `.` or `-`, keeping empties. -/
def splitDotDash : List Char → List (List Char)
  | [] => [[]]
  | c :: cs =>
      let r := splitDotDash cs
      if c = '.' ∨ c = '-' then [] :: r
      else
        match r with
        | [] => [[c]]
        | p :: ps => (c :: p) :: ps

/-!
## bump_version (src/dunamai/__init__.py lines 1418-1439)

    bases = [int(x) for x in base.split(".")]
    bases[index] += 1
    limit = 0 if index < 0 else len(bases)
    i = index + 1
    while i < limit:
        bases[i] = 0
        i += 1
    return ".".join(str(x) for x in bases)

A Python list index `index` (possibly negative) addresses position
`index + len` when negative; out-of-range access raises `IndexError`.
The zeroing loop runs over `index+1 ..< limit`; for a negative `index`
the indices `index+1 .. -1` address positions `len+index+1 .. len-1`,
and for a non-negative `index` the indices `index+1 .. len-1` do so
directly: in both cases exactly the positions strictly to the right of
the incremented one are set to 0.
-/

/-- Normalize a Python list index against a list length; `none` when out
of range (Python `IndexError`). -/
def pyIndex (len : Nat) (index : Int) : Option Nat :=
  let j : Int := if index < 0 then index + len else index
  if 0 ≤ j ∧ j < len then some j.toNat else none

/-- `bases[index] += 1` followed by the zeroing loop, at the already
normalized position `i`: increment position `i`, set every later
position to 0. -/
def bumpAt : Nat → List Int → List Int
  | _, [] => []
  | 0, v :: rest => (v + 1) :: rest.map (fun _ => 0)
  | i + 1, v :: rest => v :: bumpAt i rest

def bump_version (base : List Char) (index : Int) : Except PyError (List Char) := do
  let bases ← (splitSep '.' base).mapM
    (fun x => match pyInt x with | some n => Except.ok n | none => Except.error PyError.valueError)
  match pyIndex bases.length index with
  | none => Except.error PyError.indexError
  | some i => return joinSep '.' ((bumpAt i bases).map intToChars)

/-- Python `s.strip()` restricted to ASCII whitespace. -/
def stripWs (cs : List Char) : List Char :=
  ((spanP isPySpace ((spanP isPySpace cs).2.reverse)).2).reverse

/-- Python string `<`: lexicographic comparison of code points. -/
def pyStrLt : List Char → List Char → Bool
  | [], [] => false
  | [], _ :: _ => true
  | _ :: _, [] => false
  | a :: as, b :: bs => if a < b then true else if a = b then pyStrLt as bs else false

/-!
## The default tag pattern VERSION_SOURCE_PATTERN (lines 37-42)

    ^v((?P<epoch>\d+)!)?(?P<base>\d+(\.\d+)*)
    ([-._]?((?P<stage>[a-zA-Z]+)[-._]?(?P<revision>\d+)?))?
    (\+(?P<tagged_metadata>.+))?$

matched with `re.search` (the `^` anchor restricts it to position 0; `$`
matches at the end of the string or just before one trailing newline,
and `.` does not match a newline).

Greedy sub-patterns are embedded as deterministic maximal munch where
backtracking provably cannot produce a different successful split:
  * a shortened `\d+` or `[a-zA-Z]+` run leaves a digit (resp. letter)
    as the next character, and no continuation of that run in this
    pattern can start with a digit (resp. letter);
  * stopping the `(\.\d+)*` star early leaves `.` followed by a digit,
    and every continuation (`[-._]?` + `[a-zA-Z]+`, `\+`, or `$`) fails
    on that;
  * a shortened `.+` run in the metadata group leaves a non-newline
    character on which `$` fails.
The remaining optional groups are tried present-first with explicit
fallback (`<|>`), exactly like the backtracking engine.
-/

/-- Named capture groups of a pattern match (all values are the captured
substrings; absent groups are `none`). -/
structure PatternMatch where
  base : Option (List Char)
  stage : Option (List Char)
  revision : Option (List Char)
  tagged_metadata : Option (List Char)
  epoch : Option (List Char)
deriving DecidableEq, Repr

/-- Python `$` (no MULTILINE): end of input or just before one trailing
newline. -/
def atDollar : List Char → Bool
  | [] => true
  | [c] => c = '\n'
  | _ => false

/-- `[-._]` -/
def isSepChar (c : Char) : Bool := c = '-' ∨ c = '.' ∨ c = '_'

/-- `(\.\d+)*`, greedy: consume as many `.`+digits groups as possible,
returning (consumed, rest).  Structural fuel; `fuel ≥ length` always
suffices since every iteration consumes at least two characters. -/
def munchDotRunsFuel : Nat → List Char → List Char × List Char
  | 0, cs => ([], cs)
  | fuel + 1, cs =>
      match cs with
      | c :: cs' =>
          if c = '.' then
            match spanP isDig cs' with
            | ([], _) => ([], c :: cs')
            | (d :: run, rest) =>
                let r := munchDotRunsFuel fuel rest
                ('.' :: d :: (run ++ r.1), r.2)
          else ([], c :: cs')
      | [] => ([], [])

def munchDotRuns (cs : List Char) : List Char × List Char :=
  munchDotRunsFuel cs.length cs

/-- `\d+(\.\d+)*` (the `base` group and the numeric cores of the
validators), greedy; `none` if there is no leading digit. -/
def munchBase (cs : List Char) : Option (List Char × List Char) :=
  match spanP isDig cs with
  | ([], _) => none
  | (c :: run, rest) =>
      let r := munchDotRuns rest
      some (c :: (run ++ r.1), r.2)

/-- `(\+(?P<tagged_metadata>.+))?$` — returns the captured group. -/
def matchTagged (cs : List Char) : Option (Option (List Char)) :=
  (match cs with
   | c :: rest =>
       if c = '+' then
         let r := spanP (fun x => x ≠ '\n') rest
         if r.1 ≠ [] ∧ atDollar r.2 then some (some r.1) else none
       else none
   | [] => none)
  <|> (if atDollar cs then some none else none)

/-- `(?P<revision>\d+)?` followed by the tagged-metadata group and `$`
(the revision group tried present-first). -/
def matchRevThen (cs' : List Char) : Option (Option (List Char) × Option (List Char)) :=
  (match spanP isDig cs' with
   | (c :: run, rest) => (matchTagged rest).map (fun t => (some (c :: run), t))
   | _ => none)
  <|> (matchTagged cs').map (fun t => ((none : Option (List Char)), t))

/-- `[-._]?(?P<revision>\d+)?` followed by the tagged-metadata group and
`$`; returns (revision, tagged_metadata). -/
def matchRevTail (cs : List Char) : Option (Option (List Char) × Option (List Char)) :=
  match cs with
  | c :: rest =>
      if isSepChar c then matchRevThen rest <|> matchRevThen (c :: rest)
      else matchRevThen (c :: rest)
  | [] => matchRevThen []

/-- The inner group `(?P<stage>[a-zA-Z]+)[-._]?(?P<revision>\d+)?`
followed by the tagged-metadata group and `$`. -/
def matchStageCore (cs : List Char) :
    Option (Option (List Char) × Option (List Char) × Option (List Char)) :=
  match spanP isAlpha cs with
  | (c :: run, rest) => (matchRevTail rest).map (fun rt => (some (c :: run), rt.1, rt.2))
  | _ => none

/-- `([-._]?((?P<stage>[a-zA-Z]+)[-._]?(?P<revision>\d+)?))?` followed by
the tagged-metadata group and `$`; returns (stage, revision, tagged). -/
def matchStageTail (cs : List Char) :
    Option (Option (List Char) × Option (List Char) × Option (List Char)) :=
  (match cs with
   | c :: rest =>
       if isSepChar c then matchStageCore rest <|> matchStageCore (c :: rest)
       else matchStageCore (c :: rest)
   | [] => matchStageCore [])
  <|> (matchTagged cs).map (fun t => ((none : Option (List Char)), (none : Option (List Char)), t))

/-- `(?P<base>\d+(\.\d+)*)` followed by the stage and metadata groups
and `$`, with the epoch capture already decided. -/
def matchFromBase (ep : Option (List Char)) (cs : List Char) : Option PatternMatch :=
  (munchBase cs).bind (fun br =>
    (matchStageTail br.2).map (fun srt =>
      ⟨some br.1, srt.1, srt.2.1, srt.2.2, ep⟩))

/-- The whole default pattern, producing the captured groups. -/
def matchVersionSource (cs : List Char) : Option PatternMatch :=
  match cs with
  | c0 :: rest =>
      if c0 = 'v' then
        -- `((?P<epoch>\d+)!)?`: only the maximal digit run can be followed
        -- by `!`; on failure of the rest, fall back to the absent group
        (match spanP isDig rest with
         | (c :: run, b :: rest') =>
             if b = '!' then matchFromBase (some (c :: run)) rest' else none
         | _ => none)
        <|> matchFromBase none rest
      else none
  | [] => none

/-!
## _match_version_pattern (lines 121-181)

The `pattern` argument is an arbitrary regular expression; it is
modelled abstractly as a matching function together with the one fact
the code inspects about the pattern itself: whether it defines a
capture group named `base` (`match.group("base")` raises `IndexError`
exactly when the pattern has no such group, which the code converts to
the configuration error). -/
structure Pattern where
  hasGroupBase : Bool
  exec : List Char → Option PatternMatch

inductive MatchError where
  /-- ValueError "Pattern ... did not include required capture group 'base'" -/
  | configurationError
  /-- ValueError "Pattern ... did not match ..." -/
  | patternError
  /-- ValueError "Revision/Epoch ... is not a valid number" -/
  | formatError
  /-- IndexError from `sources[0]` on an empty source list -/
  | indexError
deriving DecidableEq, Repr

structure MatchedVersionPattern where
  matched_tag : List Char
  base : List Char
  stage_revision : Option (List Char × Option Int)
  newer_tags : List (List Char)
  tagged_metadata : Option (List Char)
  epoch : Option Int
deriving DecidableEq, Repr

/-- The scanning loop of `_match_version_pattern`: non-matching sources
are appended to the newer-tags list; a match without a `base` group in
the pattern raises the configuration error; a match whose `base` group
did not participate continues the scan without recording the source. -/
def matchScan (p : Pattern) :
    List (List Char) → List (List Char) →
    Except MatchError (Option (List Char × List Char × PatternMatch × List (List Char)))
  | [], _ => .ok none
  | src :: rest, newer =>
      match p.exec src with
      | none => matchScan p rest (newer ++ [src])
      | some m =>
          if p.hasGroupBase then
            match m.base with
            | some b => .ok (some (src, b, m, newer))
            | none => matchScan p rest newer
          else .error .configurationError

def _match_version_pattern (p : Pattern) (sources : List (List Char)) (latest_source : Bool) :
    Except MatchError MatchedVersionPattern := do
  let iter := if latest_source then sources.take 1 else sources
  match ← matchScan p iter [] with
  | none =>
      -- "if pattern_match is None or base is None": with latest_source the
      -- message interpolates sources[0], which raises IndexError on an
      -- empty source list before the ValueError can be raised
      if latest_source ∧ sources = [] then Except.error MatchError.indexError
      else Except.error MatchError.patternError
  | some (src, b, m, newer) =>
      let stage_revision ←
        match m.stage with
        | none => pure (none : Option (List Char × Option Int))
        | some st =>
            match m.revision with
            | none => pure (some (st, (none : Option Int)))
            | some rv =>
                match pyInt rv with
                | some n => pure (some (st, some n))
                | none => Except.error MatchError.formatError
      let epoch ←
        match m.epoch with
        | none => pure (none : Option Int)
        | some es =>
            match pyInt es with
            | some n => pure (some n)
            | none => Except.error MatchError.formatError
      return ⟨src, b, stage_revision, newer, m.tagged_metadata, epoch⟩

/-- The concrete default pattern used by `Version.parse`. -/
def defaultPattern : Pattern := ⟨true, matchVersionSource⟩

/-!
## Validators (check_version, lines 1241-1259, and the grammars at 47-62)
-/

/-- Metadata tail of the PEP 440 grammar after the `+`:
`([a-zA-Z0-9]|[a-zA-Z0-9]{2}|[a-zA-Z0-9][a-zA-Z0-9.]+[a-zA-Z0-9])` then
`$`.  Since `$` only matches at the very end, the alternation must cover
the whole maximal run of `[a-zA-Z0-9.]`, which it does exactly when that
run is nonempty and starts and ends with an alphanumeric character. -/
def pep440MetaTail (cs : List Char) : Bool :=
  match spanP (fun c => isAlnum c ∨ c = '.') cs with
  | ([], _) => false
  | (c :: run, rest) =>
      isAlnum c && isAlnum ((c :: run).getLast (List.cons_ne_nil c run)) && atDollar rest

/-- `(\+metadata)?$` -/
def checkPep440Plus (cs : List Char) : Bool :=
  match cs with
  | '+' :: rest => pep440MetaTail rest
  | _ => atDollar cs

/-- `(\.dev\d+)?` then the metadata tail. -/
def checkPep440Dev (cs : List Char) : Bool :=
  (match cs with
   | '.' :: 'd' :: 'e' :: 'v' :: rest =>
       match spanP isDig rest with
       | (_ :: _, rest') => checkPep440Plus rest'
       | _ => false
   | _ => false)
  || checkPep440Plus cs

/-- `(\.post\d+)?` then the dev tail. -/
def checkPep440Post (cs : List Char) : Bool :=
  (match cs with
   | '.' :: 'p' :: 'o' :: 's' :: 't' :: rest =>
       match spanP isDig rest with
       | (_ :: _, rest') => checkPep440Dev rest'
       | _ => false
   | _ => false)
  || checkPep440Dev cs

/-- `((a|b|rc)\d+)?` then the post tail. -/
def checkPep440Stage (cs : List Char) : Bool :=
  (match cs with
   | 'a' :: rest =>
       match spanP isDig rest with
       | (_ :: _, rest') => checkPep440Post rest'
       | _ => false
   | 'b' :: rest =>
       match spanP isDig rest with
       | (_ :: _, rest') => checkPep440Post rest'
       | _ => false
   | 'r' :: 'c' :: rest =>
       match spanP isDig rest with
       | (_ :: _, rest') => checkPep440Post rest'
       | _ => false
   | _ => false)
  || checkPep440Post cs

/-- `_VALID_PEP440` (lines 47-55). -/
def checkPep440 (cs : List Char) : Bool :=
  (match spanP isDig cs with
   | (_ :: _, '!' :: rest) =>
       match munchBase rest with
       | some br => checkPep440Stage br.2
       | none => false
   | _ => false)
  || (match munchBase cs with
      | some br => checkPep440Stage br.2
      | none => false)

/-- `[a-zA-Z0-9-]` (a SemVer identifier character). -/
def semverIdChar (c : Char) : Bool := isAlnum c ∨ c = '-'

/-- `(\.[a-zA-Z0-9-]+)*`, greedy; returns the rest. -/
def semverDotChunksFuel : Nat → List Char → List Char
  | 0, cs => cs
  | fuel + 1, cs =>
      match cs with
      | '.' :: rest =>
          match spanP semverIdChar rest with
          | ([], _) => cs
          | (_ :: _, rest') => semverDotChunksFuel fuel rest'
      | _ => cs

/-- `(\+[a-zA-Z0-9-]+(\.[a-zA-Z0-9-]+)*)?$` -/
def checkSemVerMeta (cs : List Char) : Bool :=
  (match cs with
   | '+' :: rest =>
       match spanP semverIdChar rest with
       | ([], _) => false
       | (_ :: _, rest') => atDollar (semverDotChunksFuel rest'.length rest')
   | _ => false)
  || atDollar cs

/-- `(\-[a-zA-Z0-9-]+(\.[a-zA-Z0-9-]+)*)?` then the metadata part. -/
def checkSemVerPre (cs : List Char) : Bool :=
  (match cs with
   | '-' :: rest =>
       match spanP semverIdChar rest with
       | ([], _) => false
       | (_ :: _, rest') => checkSemVerMeta (semverDotChunksFuel rest'.length rest')
   | _ => false)
  || checkSemVerMeta cs

/-- `_VALID_SEMVER` (lines 56-61): `^\d+\.\d+\.\d+` then prerelease and
metadata groups. -/
def checkSemVer (cs : List Char) : Bool :=
  match spanP isDig cs with
  | ([], _) => false
  | (_, '.' :: cs2) =>
      match spanP isDig cs2 with
      | ([], _) => false
      | (_, '.' :: cs3) =>
          match spanP isDig cs3 with
          | ([], _) => false
          | (_, rest) => checkSemVerPre rest
      | _ => false
  | _ => false

/-- `(-[a-zA-Z0-9]+)*`, greedy; returns the rest. -/
def pvpDashChunksFuel : Nat → List Char → List Char
  | 0, cs => cs
  | fuel + 1, cs =>
      match cs with
      | '-' :: rest =>
          match spanP isAlnum rest with
          | ([], _) => cs
          | (_ :: _, rest') => pvpDashChunksFuel fuel rest'
      | _ => cs

/-- `_VALID_PVP` (line 62): `^\d+(\.\d+)*(-[a-zA-Z0-9]+)*$`. -/
def checkPvp (cs : List Char) : Bool :=
  match munchBase cs with
  | none => false
  | some br => atDollar (pvpDashChunksFuel br.2.length br.2)

inductive Style where
  | Pep440
  | SemVer
  | Pvp
deriving DecidableEq, Repr

/-- `re.search(r"^0[0-9]+$", x)`: a leading-zero numeric identifier. -/
def leadingZeroSeg (s : List Char) : Bool :=
  match s with
  | c :: rest =>
      if c = '0' then
        match spanP isDig rest with
        | ([], _) => false
        | (_, rest') => atDollar rest'
      else false
  | [] => false

/-- `check_version` (lines 1241-1259). -/
def check_version (version : List Char) (style : Style) : Except PyError Unit :=
  let ok :=
    match style with
    | Style.Pep440 => checkPep440 version
    | Style.SemVer => checkSemVer version
    | Style.Pvp => checkPvp version
  if ok = false then Except.error PyError.valueError
  else if style = Style.SemVer ∧
      ((splitDotDash (spanP (fun c => c ≠ '+') version).1).any leadingZeroSeg) then
    Except.error PyError.valueError
  else Except.ok ()

/-!
## Serializers (lines 1316-1415)
-/

/-- ASCII `str.lower()` (the stage labels of interest are ASCII). -/
def lowerChar (c : Char) : Char := if isUpp c then Char.ofNat (c.toNat + 32) else c

def lowerChars (cs : List Char) : List Char := cs.map lowerChar

/-- The stage normalization of `serialize_pep440` (lines 1347-1349):
`alternative_stages.get(stage.lower(), stage.lower())` with the table
{"alpha": "a", "beta": "b", "c": "rc", "pre": "rc", "preview": "rc"}. -/
def pepAliasStage (st : List Char) : List Char :=
  let l := lowerChars st
  if l = "alpha".toList then "a".toList
  else if l = "beta".toList then "b".toList
  else if l = "c".toList then "rc".toList
  else if l = "pre".toList then "rc".toList
  else if l = "preview".toList then "rc".toList
  else l

/-- The string built by `serialize_pep440` before its own validation
(lines 1340-1365).  Metadata segments are modelled as strings (the
source applies `str` to each segment). -/
def renderPep440 (base : List Char) (stage : Option (List Char)) (revision : Option Int)
    (post : Option Int) (dev : Option Int) (epoch : Option Int)
    (metadata : List (List Char)) : List Char :=
  (match epoch with
   | some e => intToChars e ++ ['!']
   | none => [])
  ++ base
  ++ (match stage with
      | some st =>
          pepAliasStage st ++
            (match revision with
             -- PEP 440 does not allow omitting the revision, so assume 0
             | none => natToChars 0
             | some r => intToChars r)
      | none => [])
  ++ (match post with
      | some p => ".post".toList ++ intToChars p
      | none => [])
  ++ (match dev with
      | some d => ".dev".toList ++ intToChars d
      | none => [])
  ++ (if metadata ≠ [] then '+' :: joinSep '.' metadata else [])

def serialize_pep440 (base : List Char) (stage : Option (List Char)) (revision : Option Int)
    (post : Option Int) (dev : Option Int) (epoch : Option Int)
    (metadata : List (List Char)) : Except PyError (List Char) :=
  let serialized := renderPep440 base stage revision post dev epoch metadata
  (check_version serialized Style.Pep440).map (fun _ => serialized)

/-- `serialize_semver` (lines 1370-1395). -/
def serialize_semver (base : List Char) (pre : List (List Char))
    (metadata : List (List Char)) : Except PyError (List Char) :=
  let serialized :=
    base
    ++ (if pre ≠ [] then '-' :: joinSep '.' pre else [])
    ++ (if metadata ≠ [] then '+' :: joinSep '.' metadata else [])
  (check_version serialized Style.SemVer).map (fun _ => serialized)

/-- `serialize_pvp` (lines 1398-1415). -/
def serialize_pvp (base : List Char) (metadata : List (List Char)) :
    Except PyError (List Char) :=
  let serialized :=
    base ++ (if metadata ≠ [] then '-' :: joinSep '-' metadata else [])
  (check_version serialized Style.Pvp).map (fun _ => serialized)

/-!
## The Version entity (lines 324-698)

Timestamps are modelled opaquely (no claim inspects their value); the
`__lt__` comparator never reaches its timestamp conjunct without
raising, and `serialize` only renders timestamps in the custom string
format branch, which is modelled as an opaque callback. -/
structure Version where
  base : List Char
  stage : Option (List Char)
  revision : Option Int
  distance : Int
  commit : Option (List Char)
  dirty : Option Bool
  tagged_metadata : Option (List Char)
  epoch : Option Int
  branch : Option (List Char)
  timestamp : Option Nat
deriving DecidableEq, Repr

/-- `Version.__init__`: the `stage` argument is a pair of stage label and
optional revision, stored in two separate fields. -/
def Version.make (base : List Char) (stage : Option (List Char × Option Int))
    (distance : Int) (commit : Option (List Char)) (dirty : Option Bool)
    (tagged_metadata : Option (List Char)) (epoch : Option Int)
    (branch : Option (List Char)) (timestamp : Option Nat) : Version :=
  ⟨base, stage.map Prod.fst, stage.bind Prod.snd, distance, commit, dirty,
    tagged_metadata, epoch, branch, timestamp⟩

/-- Python `and` over possibly-raising boolean conjuncts: short-circuits
on `False` and propagates exceptions. -/
def pyAnd (a : Except PyError Bool) (b : Unit → Except PyError Bool) : Except PyError Bool :=
  match a with
  | .error e => .error e
  | .ok false => .ok false
  | .ok true => b ()

/-- `Version.__lt__` (lines 439-459).  The first conjunct
`pv.Version(self.base) < pv.Version(other.base)` delegates to the
external `packaging` library and is modelled as an abstract comparison
`pvLess` that may itself raise.  In the final conjunct, evaluating the
default argument `dt.datetime(0, 0, 0, 0, 0, 0)` raises ValueError
(year 0 is out of range) before `_blank` or the comparison can run, so
reaching that conjunct always raises. -/
def Version.lt (pvLess : List Char → List Char → Except PyError Bool)
    (x y : Version) : Except PyError Bool :=
  pyAnd (pvLess x.base y.base) fun _ =>
  pyAnd (.ok (pyStrLt (x.stage.getD []) (y.stage.getD []))) fun _ =>
  pyAnd (.ok (decide (x.revision.getD 0 < y.revision.getD 0))) fun _ =>
  pyAnd (.ok (decide (x.distance < y.distance))) fun _ =>
  pyAnd (.ok (pyStrLt (x.commit.getD []) (y.commit.getD []))) fun _ =>
  -- bool(self.dirty) < bool(other.dirty): False < True
  pyAnd (.ok (!(x.dirty.getD false) && (y.dirty.getD false))) fun _ =>
  pyAnd (.ok (pyStrLt (x.tagged_metadata.getD []) (y.tagged_metadata.getD []))) fun _ =>
  pyAnd (.ok (decide (x.epoch.getD 0 < y.epoch.getD 0))) fun _ =>
  pyAnd (.ok (pyStrLt (x.branch.getD []) (y.branch.getD []))) fun _ =>
  Except.error PyError.valueError

/-- `Version.bump` (lines 676-698). -/
def Version.bump (v : Version) (index : Int) : Except PyError Version :=
  match v.stage with
  | none => (bump_version v.base index).map (fun b => { v with base := b })
  | some _ =>
      -- a missing revision defaults to 2; otherwise increment
      let r : Int :=
        match v.revision with
        | none => 2
        | some r => r + 1
      Except.ok { v with revision := some r }

/-- `Version.serialize` (lines 461-601).  The custom `format` argument is
modelled in its callback form; the str-template form is not exercised by
any claim. -/
def Version.serialize (v : Version) (metadata : Option Bool) (dirty : Bool)
    (format : Option (Version → List Char)) (style : Option Style)
    (bump : Bool) (tagged_metadata : Bool) : Except PyError (List Char) := do
  let bumpedPair ←
    if bump ∧ v.distance > 0 then
      (v.bump (-1)).map (fun b => (b.base, b.revision))
    else
      pure (v.base, v.revision)
  let base := bumpedPair.1
  let revision := bumpedPair.2
  match format with
  | some f =>
      let out := f { v with base := base, revision := revision }
      match style with
      | some s => do
          let _ ← check_version out s
          return out
      | none => return out
  | none =>
  let style := style.getD Style.Pep440
  let meta_parts : List (List Char) :=
    if metadata ≠ some false then
      (if tagged_metadata ∧ v.tagged_metadata.getD [] ≠ [] then [v.tagged_metadata.getD []] else [])
      ++ (if (metadata = some true ∨ v.distance > 0) ∧ v.commit ≠ none
          then [v.commit.getD []] else [])
      ++ (if dirty ∧ v.dirty = some true then ["dirty".toList] else [])
    else []
  let pre_parts : List (List Char) :=
    (match v.stage with
     | some st =>
         [st] ++ (match revision with
                  | some r => [intToChars r]
                  | none => [])
     | none => [])
    ++ (if v.distance > 0 then
          [(if bump then "pre" else "post").toList, intToChars v.distance]
        else [])
  let out ←
    match style with
    | Style.Pep440 =>
        let spd : Option (List Char) × Option Int × Option Int :=
          if v.stage = some "post".toList then (none, revision, none)
          else if v.stage = some "dev".toList then (none, none, revision)
          else (v.stage, none, none)
        let pd : Option Int × Option Int :=
          if v.distance > 0 then
            if bump then
              match spd.2.2 with
              | none => (spd.2.1, some v.distance)
              | some d => (spd.2.1, some (d + v.distance))
            else
              match spd.2.1, spd.2.2 with
              | none, none => (some v.distance, some 0)
              | p, none => (p, some v.distance)
              | p, some d => (p, some (d + v.distance))
          else (spd.2.1, spd.2.2)
        serialize_pep440 base spd.1 revision pd.1 pd.2 v.epoch meta_parts
    | Style.SemVer => serialize_semver base pre_parts meta_parts
    | Style.Pvp => serialize_pvp base (pre_parts ++ meta_parts)
  let _ ← check_version out style
  return out

/-!
## Version.parse (lines 603-674) and the tagged-metadata decomposer
-/

/-- `re.match(r"d?(\d+)", value)` (line 644): a prefix match; returns the
numeric value of the captured digit run. -/
def matchDistancePart (cs : List Char) : Option Nat :=
  match cs with
  | 'd' :: rest =>
      (match spanP isDig rest with
       | (c :: run, _) => some (charsToNat (c :: run))
       -- backtracking `d?` to empty requires a digit at the `d`: impossible
       | _ => none)
  | _ =>
      match spanP isDig cs with
      | (c :: run, _) => some (charsToNat (c :: run))
      | _ => none

/-- `re.match(r"g?([\da-z]+)", value)` (line 650): a prefix match;
returns the captured identifier run. -/
def matchCommitPart (cs : List Char) : Option (List Char) :=
  match cs with
  | 'g' :: rest =>
      (match spanP isLowAlnum rest with
       | (c :: run, _) => some (c :: run)
       -- `g?` backtracks to empty and `g` itself is in `[\da-z]`
       | _ => some ['g'])
  | c :: rest =>
      if isLowAlnum c then some ((spanP isLowAlnum (c :: rest)).1) else none
  | [] => none

/-- The left-to-right scan of lines 633-654: each part is claimed by at
most one still-unclaimed slot (dirty flag, then distance, then commit);
claimed parts are dropped, the rest are kept in order. -/
def decomposeParts : List (List Char) → Option Bool → Option Nat → Option (List Char) →
    Option Bool × Option Nat × Option (List Char) × List (List Char)
  | [], d, n, c => (d, n, c, [])
  | part :: rest, d, n, c =>
      if d = none ∧ part = "dirty".toList then decomposeParts rest (some true) n c
      else if d = none ∧ part = "clean".toList then decomposeParts rest (some false) n c
      else if n = none ∧ (matchDistancePart part).isSome then
        decomposeParts rest d (matchDistancePart part) c
      else if c = none ∧ (matchCommitPart part).isSome then
        decomposeParts rest d n (matchCommitPart part)
      else
        let r := decomposeParts rest d n c
        (r.1, r.2.1, r.2.2.1, part :: r.2.2.2)

/-- `Version.parse` (lines 603-674) with the default pattern.  Every
error `_match_version_pattern` can raise on a singleton source list is a
ValueError, which the code catches by returning `cls(version)`. -/
def Version.parse (version : List Char) : Version :=
  let withV := if version.head? = some 'v' then version else 'v' :: version
  match _match_version_pattern defaultPattern [withV] true with
  | .error _ => Version.make version none 0 none none none none none none
  | .ok m =>
      let dnct : Option Bool × Option Nat × Option (List Char) × Option (List Char) :=
        match m.tagged_metadata with
        | some t =>
            if t ≠ [] then
              let r := decomposeParts (splitSep '.' t) none none none
              (r.1, r.2.1, r.2.2.1, some (joinSep '.' r.2.2.2))
            else (none, none, none, some t)
        | none => (none, none, none, none)
      let distance : Int := (dnct.2.1.getD 0 : Nat)
      let tagged : Option (List Char) :=
        match dnct.2.2.2 with
        | some t => if stripWs t = [] then none else some t
        | none => none
      Version.make m.base m.stage_revision distance dnct.2.2.1 dnct.1 tagged m.epoch none none

/-!
## Basic lemmas about the character-level helpers
-/

lemma isAlpha_of_false_of_isDig {c : Char} (h : isDig c = true) : isAlpha c = false := by
  simp only [isDig, decide_eq_true_eq] at h
  simp only [isAlpha, isLow, isUpp, Bool.or_eq_false_iff, decide_eq_false_iff_not]
  intro hc
  rcases hc with hc | hc <;> rw [decide_eq_true_eq] at hc
  · exact absurd (lt_of_le_of_lt h.2 (lt_of_lt_of_le (by decide : '9' < 'a') hc.1)) (lt_irrefl c)
  · exact absurd (lt_of_le_of_lt h.2 (lt_of_lt_of_le (by decide : '9' < 'A') hc.1)) (lt_irrefl c)

lemma isDig_of_false_of_isAlpha {c : Char} (h : isAlpha c = true) : isDig c = false := by
  cases hd : isDig c
  · rfl
  · rw [isAlpha_of_false_of_isDig hd] at h
    exact absurd h (by simp)

lemma isPySpace_of_false_of_isDig {c : Char} (h : isDig c = true) : isPySpace c = false := by
  cases hs : isPySpace c
  · rfl
  · simp only [isPySpace, Bool.or_eq_true, decide_eq_true_eq] at hs
    rcases hs with h1 | h1 | h1 | h1 | h1 | h1 <;> subst h1 <;> simp [isDig] at h

lemma spanP_cons_pos {p : Char → Bool} {c : Char} (cs : List Char) (h : p c = true) :
    spanP p (c :: cs) = ((c :: (spanP p cs).1), (spanP p cs).2) := by
  simp [spanP, h]

lemma spanP_cons_neg {p : Char → Bool} {c : Char} (cs : List Char) (h : p c = false) :
    spanP p (c :: cs) = ([], c :: cs) := by
  simp [spanP, h]

/-- A span over a run of `p`-characters followed by a non-`p` boundary. -/
lemma spanP_append_all {p : Char → Bool} (xs ys : List Char)
    (hx : ∀ c ∈ xs, p c = true) (hy : ∀ c, ys.head? = some c → p c = false) :
    spanP p (xs ++ ys) = (xs, ys) := by
  induction xs with
  | nil =>
      simp only [List.nil_append]
      cases ys with
      | nil => rfl
      | cons y ys' => exact spanP_cons_neg ys' (hy y rfl)
  | cons x xs ih =>
      have hx0 : p x = true := hx x (by simp)
      rw [List.cons_append, spanP_cons_pos _ hx0,
        ih (fun c hc => hx c (by simp [hc]))]

/-!
## Decimal rendering lemmas
-/

lemma digChar_isDig {d : Nat} (h : d < 10) : isDig (digChar d) = true := by
  interval_cases d <;> decide

lemma digChar_toNat {d : Nat} (h : d < 10) : (digChar d).toNat = 48 + d := by
  interval_cases d <;> decide

/-- Value of the digits produced by `natDigitsRevFuel`, read least
significant first. -/
def digitsRevVal (ds : List Nat) : Nat := ds.foldr (fun d acc => d + 10 * acc) 0

lemma natDigitsRevFuel_spec :
    ∀ fuel n, n ≤ fuel →
      digitsRevVal (natDigitsRevFuel fuel n) = n ∧
      natDigitsRevFuel fuel n ≠ [] ∧
      ∀ d ∈ natDigitsRevFuel fuel n, d < 10 := by
  intro fuel
  induction fuel with
  | zero =>
      intro n hn
      have : n = 0 := Nat.le_zero.mp hn
      subst this
      exact ⟨rfl, by simp [natDigitsRevFuel], by simp [natDigitsRevFuel, digitsRevVal]⟩
  | succ fuel ih =>
      intro n hn
      by_cases h10 : n < 10
      · refine ⟨?_, by simp [natDigitsRevFuel, h10], ?_⟩
        · simp [natDigitsRevFuel, h10, digitsRevVal]
        · intro d hd
          simp only [natDigitsRevFuel, h10, if_true, List.mem_singleton] at hd
          omega
      · have hdiv : n / 10 ≤ fuel := by
          have : n / 10 < n := Nat.div_lt_self (by omega) (by decide)
          omega
        obtain ⟨hval, hne, hdig⟩ := ih (n / 10) hdiv
        refine ⟨?_, by simp [natDigitsRevFuel, h10], ?_⟩
        · simp only [natDigitsRevFuel, h10, if_false, digitsRevVal, List.foldr_cons]
          have := Nat.mod_add_div n 10
          simp only [digitsRevVal] at hval
          omega
        · intro d hd
          simp only [natDigitsRevFuel, h10, if_false, List.mem_cons] at hd
          rcases hd with h | h
          · subst h; exact Nat.mod_lt n (by decide)
          · exact hdig d h

lemma natToChars_ne_nil (n : Nat) : natToChars n ≠ [] := by
  have := (natDigitsRevFuel_spec n n (le_refl n)).2.1
  simp only [natToChars, natDigitsRev, ne_eq, List.map_eq_nil_iff, List.reverse_eq_nil_iff]
  exact this

lemma natToChars_all_digits (n : Nat) : ∀ c ∈ natToChars n, isDig c = true := by
  intro c hc
  simp only [natToChars, natDigitsRev, List.mem_map, List.mem_reverse] at hc
  obtain ⟨d, hd, rfl⟩ := hc
  exact digChar_isDig ((natDigitsRevFuel_spec n n (le_refl n)).2.2 d hd)

lemma charsToNat_append_digit (cs : List Char) (c : Char) :
    charsToNat (cs ++ [c]) = 10 * charsToNat cs + (c.toNat - 48) := by
  simp only [charsToNat, List.foldl_append, List.foldl_cons, List.foldl_nil]
  omega

lemma charsToNat_rev_digits (ds : List Nat) (h : ∀ d ∈ ds, d < 10) :
    charsToNat (ds.reverse.map digChar) = digitsRevVal ds := by
  induction ds with
  | nil => rfl
  | cons d ds ih =>
      simp only [List.reverse_cons, List.map_append, List.map_cons, List.map_nil]
      rw [charsToNat_append_digit, ih (fun x hx => h x (by simp [hx]))]
      rw [digChar_toNat (h d (by simp))]
      simp only [digitsRevVal, List.foldr_cons]
      omega

lemma charsToNat_natToChars (n : Nat) : charsToNat (natToChars n) = n := by
  have h := natDigitsRevFuel_spec n n (le_refl n)
  rw [natToChars, natDigitsRev, charsToNat_rev_digits _ h.2.2, h.1]

lemma intToChars_ofNat (n : Nat) : intToChars (n : Int) = natToChars n := by
  simp [intToChars]

/-!
## Python int() on a plain digit string
-/

lemma pyIntDigits_of_digits :
    ∀ cs : List Char, cs ≠ [] → (∀ c ∈ cs, isDig c = true) → pyIntDigits cs = some cs := by
  intro cs
  induction cs with
  | nil => intro h; exact absurd rfl h
  | cons c cs ih =>
      intro _ h
      cases cs with
      | nil => simp [pyIntDigits, h c (by simp)]
      | cons d rest =>
          have hd : isDig d = true := h d (by simp)
          have hdu : d ≠ '_' := by
            intro hdu; subst hdu; simp [isDig] at hd
          have hrec := ih (by simp) (fun x hx => h x (by simp [List.mem_cons] at hx ⊢; tauto))
          simp [pyIntDigits, h c (by simp), hdu, hrec]

lemma spanP_isPySpace_digits (cs : List Char) (h : ∀ c ∈ cs, isDig c = true) :
    spanP isPySpace cs = ([], cs) := by
  cases cs with
  | nil => rfl
  | cons c rest =>
      exact spanP_cons_neg rest (isPySpace_of_false_of_isDig (h c (by simp)))

lemma pyInt_of_digits (cs : List Char) (hne : cs ≠ []) (h : ∀ c ∈ cs, isDig c = true) :
    pyInt cs = some (charsToNat cs : Int) := by
  have hrev : ∀ c ∈ cs.reverse, isDig c = true := by
    intro c hc; exact h c (List.mem_reverse.mp hc)
  rw [pyInt]
  simp only [spanP_isPySpace_digits cs h, spanP_isPySpace_digits cs.reverse hrev,
    List.reverse_reverse]
  cases cs with
  | nil => exact absurd rfl hne
  | cons c rest =>
      have hc : isDig c = true := h c (by simp)
      have hcm : c ≠ '-' := by intro hcm; subst hcm; simp [isDig] at hc
      have hcp : c ≠ '+' := by intro hcp; subst hcp; simp [isDig] at hc
      have hdig := pyIntDigits_of_digits (c :: rest) (by simp) h
      simp [hcm, hcp, hdig]

lemma pyInt_natToChars (n : Nat) : pyInt (natToChars n) = some (n : Int) := by
  rw [pyInt_of_digits _ (natToChars_ne_nil n) (natToChars_all_digits n),
    charsToNat_natToChars]

lemma natToChars_no_dot (n : Nat) : ∀ c ∈ natToChars n, c ≠ '.' := by
  intro c hc hdot
  have := natToChars_all_digits n c hc
  subst hdot
  simp [isDig] at this

/-!
## split / join lemmas
-/

lemma splitSep_sepfree (sep : Char) (p : List Char) (h : ∀ c ∈ p, c ≠ sep) :
    splitSep sep p = [p] := by
  induction p with
  | nil => rfl
  | cons c cs ih =>
      have hc : c ≠ sep := h c (by simp)
      simp only [splitSep, ih (fun x hx => h x (by simp [hx])), if_neg hc]

lemma splitSep_append_sep (sep : Char) (p xs : List Char) (h : ∀ c ∈ p, c ≠ sep) :
    splitSep sep (p ++ sep :: xs) = p :: splitSep sep xs := by
  induction p with
  | nil => simp [splitSep]
  | cons c cs ih =>
      have hc : c ≠ sep := h c (by simp)
      rw [List.cons_append]
      simp only [splitSep, ih (fun x hx => h x (by simp [hx])), if_neg hc]

lemma splitSep_joinSep (sep : Char) (ps : List (List Char)) (hne : ps ≠ [])
    (hfree : ∀ p ∈ ps, ∀ c ∈ p, c ≠ sep) :
    splitSep sep (joinSep sep ps) = ps := by
  induction ps with
  | nil => exact absurd rfl hne
  | cons p ps ih =>
      cases ps with
      | nil => exact splitSep_sepfree sep p (hfree p (by simp))
      | cons q qs =>
          have hj : joinSep sep (p :: q :: qs) = p ++ sep :: joinSep sep (q :: qs) := rfl
          rw [hj, splitSep_append_sep sep p _ (hfree p (by simp)),
            ih (List.cons_ne_nil q qs)
              (fun x hx => hfree x (by simp [List.mem_cons] at hx ⊢; tauto))]

/-!
## bump_version lemmas (claim C2)
-/

lemma mapM_pyInt_nats (segs : List Nat) :
    (segs.map natToChars).mapM
        (fun x => match pyInt x with
                  | some n => Except.ok n
                  | none => Except.error PyError.valueError) =
      Except.ok (segs.map (fun (n : Nat) => (n : Int))) := by
  induction segs with
  | nil => rfl
  | cons n segs ih =>
      simp only [List.map_cons, List.mapM_cons, pyInt_natToChars n, ih]
      rfl

lemma mapM_pyInt_fails (ps : List (List Char))
    (h : ∃ s ∈ ps, pyInt s = none) :
    ps.mapM
        (fun x => match pyInt x with
                  | some n => Except.ok n
                  | none => Except.error PyError.valueError) =
      Except.error PyError.valueError := by
  induction ps with
  | nil => simp at h
  | cons p ps ih =>
      rcases h with ⟨s, hs, hnone⟩
      rcases List.mem_cons.mp hs with rfl | hs
      · simp only [List.mapM_cons, hnone]
        rfl
      · cases hp : pyInt p with
        | none => simp only [List.mapM_cons, hp]; rfl
        | some n =>
            simp only [List.mapM_cons, hp, ih ⟨s, hs, hnone⟩]
            rfl

lemma bumpAt_spec :
    ∀ (l : List Int) (i : Nat), i < l.length →
      bumpAt i l = l.take i ++ (l.getD i 0 + 1) :: List.replicate (l.length - i - 1) 0 := by
  intro l
  induction l with
  | nil => intro i hi; simp at hi
  | cons v rest ih =>
      intro i hi
      cases i with
      | zero =>
          simp only [bumpAt, List.take_zero, List.getD_cons_zero, List.nil_append,
            List.length_cons, Nat.add_sub_cancel, Nat.sub_zero]
          congr 1
          · induction rest with
            | nil => rfl
            | cons w ws ihr => simpa [List.replicate_succ] using ihr
      | succ i =>
          have hi' : i < rest.length := by simpa using hi
          have hlen : (v :: rest).length - (i + 1) - 1 = rest.length - i - 1 := by
            simp only [List.length_cons]
            omega
          simp only [bumpAt, ih i hi', List.take_succ_cons, List.getD_cons_succ,
            List.cons_append, hlen]

lemma pyIndex_some_lt {len : Nat} {index : Int} {i : Nat}
    (h : pyIndex len index = some i) : i < len := by
  unfold pyIndex at h
  by_cases hneg : index < 0
  · simp only [if_pos hneg] at h
    split at h
    · rename_i hc
      simp only [Option.some.injEq] at h
      omega
    · exact absurd h (by simp)
  · simp only [if_neg hneg] at h
    split at h
    · rename_i hc
      simp only [Option.some.injEq] at h
      omega
    · exact absurd h (by simp)

/-!
## Lemmas about Version.lt
-/

lemma pyStrLt_irrefl (s : List Char) : pyStrLt s s = false := by
  induction s with
  | nil => rfl
  | cons a as ih => simp [pyStrLt, ih]

lemma pyAnd_never_true (a : Except PyError Bool) (b : Unit → Except PyError Bool)
    (hb : b () = Except.ok false ∨ ∃ e, b () = Except.error e) :
    pyAnd a b = Except.ok false ∨ ∃ e, pyAnd a b = Except.error e := by
  cases a with
  | error e => exact Or.inr ⟨e, rfl⟩
  | ok v =>
      cases v
      · exact Or.inl rfl
      · simpa [pyAnd] using hb

lemma lt_never_ok_true (pvLess : List Char → List Char → Except PyError Bool)
    (x y : Version) :
    Version.lt pvLess x y = Except.ok false ∨ ∃ e, Version.lt pvLess x y = Except.error e := by
  unfold Version.lt
  apply pyAnd_never_true
  apply pyAnd_never_true
  apply pyAnd_never_true
  apply pyAnd_never_true
  apply pyAnd_never_true
  apply pyAnd_never_true
  apply pyAnd_never_true
  apply pyAnd_never_true
  apply pyAnd_never_true
  exact Or.inr ⟨PyError.valueError, rfl⟩

end Dunamai

namespace Dunamai

/-- C2: For every base string of dot-separated numeric segments and every
in-range index (positive or negative), bump_version splits on ".",
converts each segment to an integer (raising on a non-numeric segment),
increments the segment at the index, and resets every segment strictly
to the right of that position to 0; in particular
bump("1.2.3", -1) = "1.2.4", bump("1.2.3", 0) = "2.0.0", and
bump("1.2.3", 1) = "1.3.0". -/
theorem c2_bump_version_spec :
    (∀ (segs : List Nat) (index : Int) (i : Nat),
        pyIndex segs.length index = some i →
        bump_version (joinSep '.' (segs.map natToChars)) index =
          Except.ok (joinSep '.'
            ((segs.take i ++ (segs.getD i 0 + 1) :: List.replicate (segs.length - i - 1) 0).map
              natToChars))) ∧
    (∀ (base : List Char) (index : Int),
        (∃ s ∈ splitSep '.' base, pyInt s = none) →
        bump_version base index = Except.error PyError.valueError) ∧
    bump_version "1.2.3".toList (-1) = Except.ok "1.2.4".toList ∧
    bump_version "1.2.3".toList 0 = Except.ok "2.0.0".toList ∧
    bump_version "1.2.3".toList 1 = Except.ok "1.3.0".toList := by
  refine ⟨?_, ?_, by decide, by decide, by decide⟩
  · intro segs index i h
    have hlt : i < segs.length := pyIndex_some_lt h
    have hne : segs ≠ [] := by
      intro e
      subst e
      simp at hlt
    unfold bump_version
    rw [splitSep_joinSep '.' (segs.map natToChars) (by simpa using hne)
      (by
        intro p hp c hc
        obtain ⟨n, _, rfl⟩ := List.mem_map.mp hp
        exact natToChars_no_dot n c hc)]
    rw [mapM_pyInt_nats]
    simp only [Bind.bind, Except.bind]
    have hlen : (segs.map (fun (n : Nat) => (n : Int))).length = segs.length := by simp
    rw [hlen, h]
    have hlt' : i < (segs.map (fun (n : Nat) => (n : Int))).length := by simpa using hlt
    dsimp only
    rw [bumpAt_spec _ i hlt']
    congr 1
    have hgetD : (segs.map (fun (n : Nat) => (n : Int))).getD i 0 = ((segs.getD i 0 : Nat) : Int) := by
      simp only [List.getD_eq_getElem?_getD, List.getElem?_map]
      cases h' : segs[i]? <;> simp [h']
    simp only [List.map_append, List.map_cons, List.map_take, List.map_map, hlen, hgetD,
      List.map_replicate]
    have h1 : List.map (intToChars ∘ fun (n : Nat) => (n : Int)) segs =
        List.map natToChars segs :=
      List.map_congr_left (fun a _ => intToChars_ofNat a)
    have h2 : intToChars ((segs.getD i 0 : Int) + 1) = natToChars (segs.getD i 0 + 1) := by
      rw [show ((segs.getD i 0 : Nat) : Int) + 1 = ((segs.getD i 0 + 1 : Nat) : Int) by push_cast; ring]
      exact intToChars_ofNat _
    have h3 : intToChars 0 = natToChars 0 := rfl
    rw [h1, h2, h3]
  · intro base index h
    unfold bump_version
    rw [mapM_pyInt_fails _ h]
    rfl

/-- Witness for C2 at segs = [1, 2, 3], index = -1 (normalized position 2). -/
theorem c2_bump_version_spec_witness :
    pyIndex 3 (-1) = some 2 ∧
    bump_version (joinSep '.' ([1, 2, 3].map natToChars)) (-1) =
      Except.ok (joinSep '.'
        (([1, 2, 3].take 2 ++ ([1, 2, 3].getD 2 0 + 1) ::
            List.replicate ([1, 2, 3].length - 2 - 1) 0).map natToChars)) :=
  ⟨by decide, c2_bump_version_spec.1 [1, 2, 3] (-1) 2 (by decide)⟩

/-- C9: For every pair of Versions x and y, x < y never returns True:
whenever every conjunct before the timestamp comparison holds,
evaluating the timestamp default dt.datetime(0, 0, 0, 0, 0, 0) raises
ValueError (year 0 is out of range), and otherwise short-circuit
evaluation returns False.  (The result is either ok False or an
exception, for every model of the packaging comparison.) -/
theorem c9_lt_never_returns_true
    (pvLess : List Char → List Char → Except PyError Bool) (x y : Version) :
    Version.lt pvLess x y = Except.ok false ∨
      ∃ e, Version.lt pvLess x y = Except.error e :=
  lt_never_ok_true pvLess x y

/-- C8: The Version less-than comparator requires every field to be
individually strictly less: two Versions equal in every field except
base do not compare as less-than, even when the base comparison itself
is strictly less — the stage conjunct compares equal values and
short-circuits the conjunction to False. -/
theorem c8_lt_not_lexicographic
    (pvLess : List Char → List Char → Except PyError Bool) (x y : Version)
    (hstage : x.stage = y.stage) (hrev : x.revision = y.revision)
    (hdist : x.distance = y.distance) (hcommit : x.commit = y.commit)
    (hdirty : x.dirty = y.dirty) (htag : x.tagged_metadata = y.tagged_metadata)
    (hepoch : x.epoch = y.epoch) (hbranch : x.branch = y.branch)
    (hts : x.timestamp = y.timestamp)
    (hbase : pvLess x.base y.base = Except.ok true) :
    Version.lt pvLess x y = Except.ok false := by
  unfold Version.lt
  rw [hbase, hstage]
  simp [pyAnd, pyStrLt_irrefl]

/-- Witness for C8: two versions differing only in base, with a base
comparison that returns strictly-less. -/
theorem c8_lt_not_lexicographic_witness :
    Version.lt (fun _ _ => Except.ok true)
        (Version.make "1.0.0".toList none 0 none none none none none none)
        (Version.make "2.0.0".toList none 0 none none none none none none) =
      Except.ok false :=
  c8_lt_not_lexicographic (fun _ _ => Except.ok true) _ _
    rfl rfl rfl rfl rfl rfl rfl rfl rfl rfl

/-- C3 (amended): Parsing a full version string decomposes its captured
metadata suffix by splitting on "." and scanning once left to right,
claiming each part for at most one unclaimed slot — dirty flag
("dirty" → true, "clean" → false), distance (optional leading "d" then
digits), commit (optional leading "g" then digits and lowercase letters
only, not all alphanumerics) — with the remainder rejoined as
tagged_metadata (unset when empty) and distance defaulting to 0.
Instances: the headline example; a scan in which the commit slot claims
"foo" before "clean" and "5" fill the other slots and "gddd", "bar"
remain as metadata; a second "dirty" claimed by the commit slot (each
slot fills at most once); an uppercase part passed over by the commit
slot while a later lowercase part is claimed; and a claimed distance
of 0. -/
theorem c3_parse_metadata_decomposition :
    Version.parse "0.3.0a3+d7.gb6a9020.dirty".toList =
      Version.make "0.3.0".toList (some ("a".toList, some 3)) 7 (some "b6a9020".toList)
        (some true) none none none none ∧
    Version.parse "1.2.3+foo.clean.5.gddd.bar".toList =
      Version.make "1.2.3".toList none 5 (some "foo".toList) (some false)
        (some "gddd.bar".toList) none none none ∧
    Version.parse "1.2.3+dirty.dirty".toList =
      Version.make "1.2.3".toList none 0 (some "dirty".toList) (some true)
        none none none none ∧
    Version.parse "1.2.3+X.y".toList =
      Version.make "1.2.3".toList none 0 (some "y".toList) none
        (some "X".toList) none none none ∧
    Version.parse "0.1.0+d0.clean".toList =
      Version.make "0.1.0".toList none 0 none (some false) none none none none := by
  decide

/-- C3 counterexample: the commit slot's pattern is `g?([\da-z]+)`
(digits and lowercase letters), not "alphanumerics".  Under the claim's
description the left-to-right scan of "1.2.3+X.y" would claim the
alphanumeric part "X" for the commit slot (commit "X", metadata "y");
the code passes "X" over and claims "y" instead. -/
theorem c3_counterexample :
    (Version.parse "1.2.3+X.y".toList).commit = some "y".toList ∧
    (Version.parse "1.2.3+X.y".toList).tagged_metadata = some "X".toList ∧
    ((Version.parse "1.2.3+X.y".toList).commit == some "X".toList) = false ∧
    ((Version.parse "1.2.3+X.y".toList).tagged_metadata == some "y".toList) = false := by
  decide

/-- C10: For every input string on which the default pattern fails to
match (after prefixing "v" when the input does not already start with
"v"), Version.parse returns a Version whose base is the entire original
input, with distance 0 and every other field unset.  (In the embedding
parse is total by construction; every error the matcher can raise on a
singleton source list is a ValueError, which the source catches.) -/
theorem c10_parse_fallback (version : List Char)
    (h : matchVersionSource (if version.head? = some 'v' then version else 'v' :: version) =
      none) :
    Version.parse version = Version.make version none 0 none none none none none none := by
  unfold Version.parse
  simp only [_match_version_pattern, defaultPattern, List.take, matchScan, h]
  rfl

/-- Witness for C10 at the input "abc". -/
theorem c10_parse_fallback_witness :
    Version.parse "abc".toList =
      Version.make "abc".toList none 0 none none none none none none :=
  c10_parse_fallback "abc".toList (by decide)

/-- The scanning loop raises the configuration error on the first
matching source when the pattern has no `base` group, for any
accumulator. -/
lemma matchScan_config (p : Pattern) (hp : p.hasGroupBase = false) :
    ∀ (l acc : List (List Char)), (∃ s ∈ l, (p.exec s).isSome) →
      matchScan p l acc = Except.error MatchError.configurationError := by
  intro l
  induction l with
  | nil => intro acc h; simp at h
  | cons s rest ih =>
      intro acc h
      cases hx : p.exec s with
      | some m => simp [matchScan, hx, hp]
      | none =>
          rcases h with ⟨t, ht, hsome⟩
          rcases List.mem_cons.mp ht with rfl | ht
          · rw [hx] at hsome; simp at hsome
          · simp only [matchScan, hx]
            exact ih _ ⟨t, ht, hsome⟩

/-- C5 (amended): calling the pattern matcher with a pattern that lacks
the required "base" capture group fails with ConfigurationError whenever
some tested candidate matches the pattern; when no tested candidate
matches, the scan never looks up the missing group and a PatternError is
raised instead. -/
theorem c5_no_base_group_configuration_error (p : Pattern) (sources : List (List Char))
    (latest : Bool) (hbase : p.hasGroupBase = false)
    (hmatch : ∃ s ∈ (if latest then sources.take 1 else sources), (p.exec s).isSome) :
    _match_version_pattern p sources latest = Except.error MatchError.configurationError := by
  unfold _match_version_pattern
  dsimp only
  rw [matchScan_config p hbase _ [] hmatch]
  rfl

/-- Witness for C5's amended statement: a base-less pattern that matches
the sole candidate. -/
theorem c5_no_base_group_configuration_error_witness :
    _match_version_pattern ⟨false, fun _ => some ⟨none, none, none, none, none⟩⟩
        ["x".toList] false =
      Except.error MatchError.configurationError :=
  c5_no_base_group_configuration_error _ _ _ rfl ⟨"x".toList, by simp, rfl⟩

/-- C5 counterexample: with a base-less pattern that matches no
candidate, the matcher raises the PatternError ("did not match any
tags"), not the ConfigurationError the claim promises for every input. -/
theorem c5_counterexample :
    _match_version_pattern ⟨false, fun _ => none⟩ ["a".toList] false =
        Except.error MatchError.patternError ∧
      MatchError.patternError ≠ MatchError.configurationError :=
  ⟨rfl, by decide⟩

/-- The stage normalization table of serialize_pep440, written as the
amended claim states it: the stage is lowercased, alpha ↦ a, beta ↦ b,
c/pre/preview ↦ rc, and anything else passes through lowercased. -/
lemma pepAliasStage_eq_spec (st : List Char) :
    pepAliasStage st =
      (if lowerChars st = "alpha".toList then "a".toList
       else if lowerChars st = "beta".toList then "b".toList
       else if lowerChars st = "c".toList ∨ lowerChars st = "pre".toList ∨
           lowerChars st = "preview".toList then "rc".toList
       else lowerChars st) := by
  unfold pepAliasStage
  by_cases h1 : lowerChars st = "alpha".toList
  · rw [if_pos h1, if_pos h1]
  by_cases h2 : lowerChars st = "beta".toList
  · rw [if_neg h1, if_pos h2, if_neg h1, if_pos h2]
  by_cases h3 : lowerChars st = "c".toList
  · rw [if_neg h1, if_neg h2, if_pos h3, if_neg h1, if_neg h2, if_pos (Or.inl h3)]
  by_cases h4 : lowerChars st = "pre".toList
  · rw [if_neg h1, if_neg h2, if_neg h3, if_pos h4, if_neg h1, if_neg h2,
      if_pos (Or.inr (Or.inl h4))]
  by_cases h5 : lowerChars st = "preview".toList
  · rw [if_neg h1, if_neg h2, if_neg h3, if_neg h4, if_pos h5, if_neg h1, if_neg h2,
      if_pos (Or.inr (Or.inr h5))]
  · have hor : ¬(lowerChars st = "c".toList ∨ lowerChars st = "pre".toList ∨
        lowerChars st = "preview".toList) := by tauto
    rw [if_neg h1, if_neg h2, if_neg h3, if_neg h4, if_neg h5, if_neg hor, if_neg h1,
      if_neg h2]

lemma except_bind_ok {ε α β : Type} (a : α) (f : α → Except ε β) :
    (Except.ok a >>= f) = f a := rfl

lemma except_bind_err {ε α β : Type} (e : ε) (f : α → Except ε β) :
    ((Except.error e : Except ε α) >>= f) = Except.error e := rfl

lemma except_pure {ε α : Type} (a : α) : (pure a : Except ε α) = Except.ok a := rfl

lemma serialize_pep440_ok_check {base : List Char} {stage : Option (List Char)}
    {revision post dev epoch : Option Int} {metadata : List (List Char)} {out : List Char}
    (h : serialize_pep440 base stage revision post dev epoch metadata = Except.ok out) :
    check_version (renderPep440 base stage revision post dev epoch metadata) Style.Pep440 =
      Except.ok () := by
  unfold serialize_pep440 at h
  dsimp only at h
  cases hc : check_version (renderPep440 base stage revision post dev epoch metadata)
      Style.Pep440 with
  | ok u => cases u; rfl
  | error e => rw [hc] at h; simp [Except.map] at h

lemma serialize_pep440_ok_out {base : List Char} {stage : Option (List Char)}
    {revision post dev epoch : Option Int} {metadata : List (List Char)} {out : List Char}
    (h : serialize_pep440 base stage revision post dev epoch metadata = Except.ok out) :
    out = renderPep440 base stage revision post dev epoch metadata := by
  unfold serialize_pep440 at h
  dsimp only at h
  cases hc : check_version (renderPep440 base stage revision post dev epoch metadata)
      Style.Pep440 with
  | ok u =>
      rw [hc] at h
      cases u
      simpa [Except.map] using h.symm
  | error e =>
      rw [hc] at h
      simp [Except.map] at h

/-- The rendering of serialize_pep440 as described by the amended claim
C7: stage lowercased then alias-mapped (alpha→a, beta→b,
c/pre/preview→rc, others unchanged), an absent revision rendered as 0. -/
def specPep440Render (base : List Char) (stage : Option (List Char))
    (revision post dev epoch : Option Int) (metadata : List (List Char)) : List Char :=
  (match epoch with
   | some e => intToChars e ++ ['!']
   | none => []) ++ base ++
  (match stage with
   | some st =>
       (if lowerChars st = "alpha".toList then "a".toList
        else if lowerChars st = "beta".toList then "b".toList
        else if lowerChars st = "c".toList ∨ lowerChars st = "pre".toList ∨
            lowerChars st = "preview".toList then "rc".toList
        else lowerChars st) ++
       (match revision with
        | none => "0".toList
        | some r => intToChars r)
   | none => []) ++
  (match post with
   | some p => ".post".toList ++ intToChars p
   | none => []) ++
  (match dev with
   | some d => ".dev".toList ++ intToChars d
   | none => []) ++
  (if metadata ≠ [] then '+' :: joinSep '.' metadata else [])

/-- C7 (amended): in the PEP440 serializer a set stage is lowercased and
then normalized through the alias table (alpha→a, beta→b,
c/pre/preview→rc); a label outside the table passes through in
lowercased form; and a set stage with an absent revision is rendered
with revision 0 — i.e. a successful serialize_pep440 output is exactly
the amended claim's rendering. -/
theorem c7_pep440_stage_normalization (base st : List Char)
    (revision post dev epoch : Option Int) (metadata : List (List Char)) (out : List Char)
    (h : serialize_pep440 base (some st) revision post dev epoch metadata = Except.ok out) :
    out = specPep440Render base (some st) revision post dev epoch metadata := by
  have hout := serialize_pep440_ok_out h
  clear h
  subst hout
  unfold renderPep440 specPep440Render
  dsimp only
  rw [pepAliasStage_eq_spec]
  cases revision <;> rfl

/-- Witness for C7's amended statement: stage "ALPHA" with no revision
serializes to "1.2.3a0". -/
theorem c7_pep440_stage_normalization_witness :
    "1.2.3a0".toList =
      specPep440Render "1.2.3".toList (some "ALPHA".toList) none none none none [] :=
  c7_pep440_stage_normalization "1.2.3".toList "ALPHA".toList none none none none [] _
    (by decide)

/-- C4: When serializing in PEP440 style without bumping and with
distance > 0, the distance is rendered as post=distance with dev=0 when
neither a post nor a dev component is already present (stage unset, or
an ordinary prerelease stage), and is otherwise added arithmetically
into the dev number (stage "post" with a revision: dev = distance;
stage "dev" with a revision: dev = revision + distance); in particular
Version("1.0.0", distance=3).serialize(style=PEP440) =
"1.0.0.post3.dev0" when commit is absent. -/
theorem c4_pep440_distance_rendering :
    (∀ (v : Version) (out : List Char),
        v.distance > 0 → v.stage = none → v.commit = none → v.epoch = none →
        Version.serialize v none false none (some Style.Pep440) false false = Except.ok out →
        out = v.base ++ ".post".toList ++ intToChars v.distance ++ ".dev0".toList) ∧
    (∀ (v : Version) (st : List Char) (out : List Char),
        v.distance > 0 → v.stage = some st → st ≠ "post".toList → st ≠ "dev".toList →
        v.commit = none → v.epoch = none →
        Version.serialize v none false none (some Style.Pep440) false false = Except.ok out →
        out = v.base ++ pepAliasStage st ++ intToChars (v.revision.getD 0) ++
          ".post".toList ++ intToChars v.distance ++ ".dev0".toList) ∧
    (∀ (v : Version) (r : Int) (out : List Char),
        v.distance > 0 → v.stage = some "post".toList → v.revision = some r →
        v.commit = none → v.epoch = none →
        Version.serialize v none false none (some Style.Pep440) false false = Except.ok out →
        out = v.base ++ ".post".toList ++ intToChars r ++
          ".dev".toList ++ intToChars v.distance) ∧
    (∀ (v : Version) (r : Int) (out : List Char),
        v.distance > 0 → v.stage = some "dev".toList → v.revision = some r →
        v.commit = none → v.epoch = none →
        Version.serialize v none false none (some Style.Pep440) false false = Except.ok out →
        out = v.base ++ ".dev".toList ++ intToChars (r + v.distance)) ∧
    Version.serialize (Version.make "1.0.0".toList none 3 none none none none none none)
        none false none (some Style.Pep440) false false =
      Except.ok "1.0.0.post3.dev0".toList := by
  refine ⟨?_, ?_, ?_, ?_, by decide⟩
  · intro v out hd hst hc hep h
    unfold Version.serialize at h
    simp only [Bool.false_eq_true, false_and, if_false, reduceIte, hst, hc, hep, hd,
      except_pure, except_bind_ok, Option.getD_some, if_true,
      List.nil_append, List.append_nil, ne_eq, not_true_eq_false, and_false,
      not_false_eq_true, and_true, reduceCtorEq, ite_self] at h
    cases hsp : serialize_pep440 v.base none v.revision (some v.distance) (some 0) none [] with
    | error e => rw [hsp] at h; simp [except_bind_err] at h
    | ok o =>
        rw [hsp] at h
        have hck := serialize_pep440_ok_check hsp
        have hout := serialize_pep440_ok_out hsp
        subst hout
        rw [except_bind_ok, hck, except_bind_ok] at h
        simp only [except_pure, Except.ok.injEq] at h
        subst h
        simp only [renderPep440, List.nil_append, List.append_nil, List.append_assoc,
          ne_eq, not_true_eq_false, reduceIte]
        congr 1
  · intro v st out hd hst h1 h2 hc hep h
    unfold Version.serialize at h
    simp only [Bool.false_eq_true, false_and, if_false, reduceIte, hst, hc, hep, hd,
      except_pure, except_bind_ok, Option.getD_some, if_true, Option.some.injEq, h1, h2,
      List.nil_append, List.append_nil, ne_eq, not_true_eq_false, and_false,
      not_false_eq_true, and_true, reduceCtorEq, ite_self] at h
    cases hsp : serialize_pep440 v.base (some st) v.revision (some v.distance) (some 0)
        none [] with
    | error e => rw [hsp] at h; simp [except_bind_err] at h
    | ok o =>
        rw [hsp] at h
        have hck := serialize_pep440_ok_check hsp
        have hout := serialize_pep440_ok_out hsp
        subst hout
        rw [except_bind_ok, hck, except_bind_ok] at h
        simp only [except_pure, Except.ok.injEq] at h
        subst h
        simp only [renderPep440, List.nil_append, List.append_nil, List.append_assoc,
          ne_eq, not_true_eq_false, reduceIte]
        cases hr : v.revision with
        | none => simp only [Option.getD_none]; congr 1
        | some r => simp only [Option.getD_some]; congr 1
  · intro v r out hd hst hrev hc hep h
    unfold Version.serialize at h
    simp only [Bool.false_eq_true, false_and, if_false, reduceIte, hst, hrev, hc, hep, hd,
      except_pure, except_bind_ok, Option.getD_some, if_true,
      List.nil_append, List.append_nil, ne_eq, not_true_eq_false, and_false,
      not_false_eq_true, and_true, reduceCtorEq, ite_self] at h
    cases hsp : serialize_pep440 v.base none (some r) (some r) (some v.distance) none [] with
    | error e => rw [hsp] at h; simp [except_bind_err] at h
    | ok o =>
        rw [hsp] at h
        have hck := serialize_pep440_ok_check hsp
        have hout := serialize_pep440_ok_out hsp
        subst hout
        rw [except_bind_ok, hck, except_bind_ok] at h
        simp only [except_pure, Except.ok.injEq] at h
        subst h
        simp only [renderPep440, List.nil_append, List.append_nil, List.append_assoc,
          ne_eq, not_true_eq_false, reduceIte]
  · intro v r out hd hst hrev hc hep h
    unfold Version.serialize at h
    simp only [Bool.false_eq_true, false_and, if_false, reduceIte, hst, hrev, hc, hep, hd,
      except_pure, except_bind_ok, Option.getD_some, if_true, Option.some.injEq,
      show ¬("dev".toList = "post".toList) by decide,
      List.nil_append, List.append_nil, ne_eq, not_true_eq_false, and_false,
      not_false_eq_true, and_true, reduceCtorEq, ite_self] at h
    cases hsp : serialize_pep440 v.base none (some r) none (some (r + v.distance)) none [] with
    | error e => rw [hsp] at h; simp [except_bind_err] at h
    | ok o =>
        rw [hsp] at h
        have hck := serialize_pep440_ok_check hsp
        have hout := serialize_pep440_ok_out hsp
        subst hout
        rw [except_bind_ok, hck, except_bind_ok] at h
        simp only [except_pure, Except.ok.injEq] at h
        subst h
        simp only [renderPep440, List.nil_append, List.append_nil, List.append_assoc,
          ne_eq, not_true_eq_false, reduceIte]

/-- Witness for C4: distance 5 with no stage renders post5.dev0. -/
theorem c4_pep440_distance_rendering_witness :
    "2.0.0.post5.dev0".toList =
      "2.0.0".toList ++ ".post".toList ++ intToChars 5 ++ ".dev0".toList :=
  c4_pep440_distance_rendering.1
    (Version.make "2.0.0".toList none 5 none none none none none none) _
    (by decide) rfl rfl rfl (by decide)

lemma spanP_eq (p : Char → Bool) (cs : List Char) :
    cs = (spanP p cs).1 ++ (spanP p cs).2 ∧
    (∀ c ∈ (spanP p cs).1, p c = true) ∧
    (∀ c, (spanP p cs).2.head? = some c → p c = false) := by
  induction cs with
  | nil =>
      refine ⟨rfl, ?_, ?_⟩ <;>
        · rw [show spanP p [] = (([] : List Char), ([] : List Char)) from rfl]
          intro c hc
          simp at hc
  | cons c cs ih =>
      cases hp : p c with
      | true =>
          rw [spanP_cons_pos cs hp]
          refine ⟨by simpa using ih.1, ?_, ih.2.2⟩
          intro x hx
          rcases List.mem_cons.mp hx with rfl | hx
          · exact hp
          · exact ih.2.1 x hx
      | false =>
          rw [spanP_cons_neg cs hp]
          exact ⟨rfl, by simp, by intro x hx; simp at hx; subst hx; exact hp⟩

lemma atDollar_iff (cs : List Char) : atDollar cs = true ↔ cs = [] ∨ cs = ['\n'] := by
  cases cs with
  | nil => simp [show atDollar [] = true from rfl]
  | cons x xs =>
      cases xs with
      | nil =>
          rw [show atDollar [x] = decide (x = '\n') from rfl]
          simp
      | cons y ys => simp [show atDollar (x :: y :: ys) = false from rfl]

lemma spanP_all (p : Char → Bool) (xs : List Char) (hx : ∀ c ∈ xs, p c = true) :
    spanP p xs = (xs, []) := by
  have := spanP_append_all xs [] hx (by simp)
  simpa using this

/-- The leading-zero test `re.search(r"^0[0-9]+$", x)`, characterized:
the segment is a 0 followed by a nonempty digit run, optionally with one
trailing newline (the Python `$`). -/
lemma leadingZeroSeg_iff (seg : List Char) :
    leadingZeroSeg seg = true ↔
      ∃ ds, ds ≠ [] ∧ (∀ c ∈ ds, isDig c = true) ∧
        (seg = '0' :: ds ∨ seg = '0' :: ds ++ ['\n']) := by
  constructor
  · intro h
    unfold leadingZeroSeg at h
    cases seg with
    | nil => simp at h
    | cons c rest =>
        dsimp only at h
        by_cases hc : c = '0'
        case neg => rw [if_neg hc] at h; simp at h
        case pos =>
          subst hc
          rw [if_pos rfl] at h
          obtain ⟨hsplit, hdig, _⟩ := spanP_eq isDig rest
          rcases hsp : spanP isDig rest with ⟨a, b⟩
          rw [hsp] at h hsplit hdig
          cases a with
          | nil => simp at h
          | cons d run =>
              have hb : b = [] ∨ b = ['\n'] := (atDollar_iff b).mp (by simpa using h)
              refine ⟨d :: run, by simp, by simpa using hdig, ?_⟩
              rcases hb with rfl | rfl
              · left
                rw [List.append_nil] at hsplit
                rw [hsplit]
              · right
                rw [hsplit]
                simp
  · rintro ⟨ds, hne, hdig, hshape⟩
    cases ds with
    | nil => exact absurd rfl hne
    | cons d dtail =>
        rcases hshape with rfl | rfl
        · unfold leadingZeroSeg
          dsimp only
          rw [if_pos rfl, spanP_all isDig (d :: dtail) hdig]
          rfl
        · unfold leadingZeroSeg
          dsimp only [List.cons_append]
          rw [if_pos rfl]
          rw [show (d :: (dtail ++ ['\n']) : List Char) = (d :: dtail) ++ ['\n'] from rfl]
          rw [spanP_append_all (d :: dtail) ['\n'] hdig
            (by intro c hcc; simp at hcc; subst hcc; decide)]
          rfl

/-- C6: validate(s, SemVer) fails exactly when the string fails the
SemVer base grammar or, after splitting everything before the first "+"
on "." and "-", some segment matches ^0[0-9]+$ — i.e. some segment is a
0 followed by a nonempty digit run (with Python's `$` also accepting one
trailing newline); in particular validate("1.2.3-01", SemVer) fails
while validate("1.2.3-1", SemVer) succeeds. -/
theorem c6_semver_validation :
    (∀ s : List Char,
        check_version s Style.SemVer = Except.ok () ↔
          (checkSemVer s = true ∧
           ∀ seg ∈ splitDotDash (spanP (fun c => c ≠ '+') s).1,
             ¬∃ ds, ds ≠ [] ∧ (∀ c ∈ ds, isDig c = true) ∧
               (seg = '0' :: ds ∨ seg = '0' :: ds ++ ['\n']))) ∧
    check_version "1.2.3-01".toList Style.SemVer = Except.error PyError.valueError ∧
    check_version "1.2.3-1".toList Style.SemVer = Except.ok () := by
  refine ⟨?_, by decide, by decide⟩
  intro s
  unfold check_version
  dsimp only
  split_ifs with h1 h2
  · simp [h1]
  · constructor
    · intro hcontra
      simp at hcontra
    · rintro ⟨-, hall⟩
      obtain ⟨seg, hmem, hlz⟩ := List.any_eq_true.mp h2.2
      exact absurd ((leadingZeroSeg_iff seg).mp hlz) (hall seg hmem)
  · constructor
    · intro _
      refine ⟨by simpa using h1, ?_⟩
      intro seg hmem hex
      exact h2 ⟨rfl, List.any_eq_true.mpr ⟨seg, hmem, (leadingZeroSeg_iff seg).mpr hex⟩⟩
    · intro _
      rfl

/-!
## Character-class facts used by the round-trip proof (claim C1)
-/

lemma char_le_iff_toNat {a b : Char} : a ≤ b ↔ a.toNat ≤ b.toNat := by
  rw [Char.le_def, UInt32.le_def, BitVec.le_def]
  rfl

lemma toNat_ofNat_valid {k : Nat} (h : k < 55296) : (Char.ofNat k).toNat = k := by
  unfold Char.ofNat
  rw [dif_pos (Or.inl h : Nat.isValidChar k)]
  rfl

lemma lowerChar_alpha {c : Char} (h : isAlpha c = true) : isAlpha (lowerChar c) = true := by
  unfold lowerChar
  by_cases hu : isUpp c = true
  · rw [if_pos hu]
    simp only [isUpp, decide_eq_true_eq] at hu
    obtain ⟨h1, h2⟩ := hu
    rw [char_le_iff_toNat] at h1 h2
    have e1 : ('A' : Char).toNat = 65 := rfl
    have e2 : ('Z' : Char).toNat = 90 := rfl
    rw [e1] at h1
    rw [e2] at h2
    have hval : c.toNat + 32 < 55296 := by omega
    simp only [isAlpha, isLow, Bool.or_eq_true, decide_eq_true_eq]
    left
    rw [char_le_iff_toNat, char_le_iff_toNat, toNat_ofNat_valid hval]
    constructor
    · show ('a' : Char).toNat ≤ c.toNat + 32
      have e3 : ('a' : Char).toNat = 97 := rfl
      omega
    · show c.toNat + 32 ≤ ('z' : Char).toNat
      have e4 : ('z' : Char).toNat = 122 := rfl
      omega
  · rw [if_neg hu]
    exact h

lemma lowerChars_alpha {st : List Char} (h : ∀ c ∈ st, isAlpha c = true) :
    ∀ c ∈ lowerChars st, isAlpha c = true := by
  intro c hc
  obtain ⟨x, hx, rfl⟩ := List.mem_map.mp hc
  exact lowerChar_alpha (h x hx)

lemma lowerChars_ne_nil {st : List Char} (h : st ≠ []) : lowerChars st ≠ [] := by
  simpa [lowerChars] using h

lemma pepAliasStage_alpha {st : List Char} (hne : st ≠ [])
    (ha : ∀ c ∈ st, isAlpha c = true) :
    pepAliasStage st ≠ [] ∧ ∀ c ∈ pepAliasStage st, isAlpha c = true := by
  unfold pepAliasStage
  dsimp only
  split_ifs <;>
    first
      | exact ⟨by decide, by decide⟩
      | exact ⟨lowerChars_ne_nil hne, lowerChars_alpha ha⟩

lemma isSepChar_false_of_alpha {c : Char} (h : isAlpha c = true) : isSepChar c = false := by
  cases hs : isSepChar c
  · rfl
  · simp only [isSepChar, Bool.or_eq_true, decide_eq_true_eq] at hs
    rcases hs with rfl | rfl | rfl <;> simp [isAlpha, isLow, isUpp] at h

lemma isSepChar_false_of_dig {c : Char} (h : isDig c = true) : isSepChar c = false := by
  cases hs : isSepChar c
  · rfl
  · simp only [isSepChar, Bool.or_eq_true, decide_eq_true_eq] at hs
    rcases hs with rfl | rfl | rfl <;> simp [isDig] at h

lemma ne_bang_of_alpha {c : Char} (h : isAlpha c = true) : c ≠ '!' := by
  intro hc
  subst hc
  simp [isAlpha, isLow, isUpp] at h

lemma ne_v_of_dig {c : Char} (h : isDig c = true) : c ≠ 'v' := by
  intro hc
  subst hc
  simp [isDig] at h

/-!
## The base group on a well-formed base string
-/

/-- `joinSep '.'` with every segment preceded by a dot (the shape of
everything after the first segment). -/
def joinPre (segs : List (List Char)) : List Char :=
  segs.foldr (fun s acc => '.' :: (s ++ acc)) []

lemma joinSep_cons_eq (s : List Char) (rest : List (List Char)) :
    joinSep '.' (s :: rest) = s ++ joinPre rest := by
  induction rest generalizing s with
  | nil => simp [joinSep, joinPre]
  | cons q qs ih =>
      have h1 : joinSep '.' (s :: q :: qs) = s ++ '.' :: joinSep '.' (q :: qs) := rfl
      rw [h1, ih q]
      simp [joinPre]

/-- The conditions under which the greedy `\d+(\.\d+)*` munch stops
exactly at the boundary: the rest does not start with a digit, nor with
a dot followed by a digit. -/
def BaseStop (tail : List Char) : Prop :=
  (∀ c, tail.head? = some c → isDig c = false) ∧
  (∀ d rest2, tail = '.' :: d :: rest2 → isDig d = false)

lemma munchDotRunsFuel_spec :
    ∀ (segs : List (List Char)) (fuel : Nat) (tail : List Char),
      (∀ s ∈ segs, s ≠ [] ∧ ∀ c ∈ s, isDig c = true) →
      (joinPre segs).length ≤ fuel →
      BaseStop tail →
      munchDotRunsFuel fuel (joinPre segs ++ tail) = (joinPre segs, tail) := by
  intro segs
  induction segs with
  | nil =>
      intro fuel tail _ _ hstop
      show munchDotRunsFuel fuel tail = ([], tail)
      cases fuel with
      | zero => cases tail <;> rfl
      | succ fuel =>
          cases tail with
          | nil => rfl
          | cons c rest =>
              show (if c = '.' then _ else _) = _
              by_cases hc : c = '.'
              · subst hc
                rw [if_pos rfl]
                cases rest with
                | nil => rfl
                | cons d rest2 =>
                    have hd : isDig d = false := hstop.2 d rest2 rfl
                    rw [spanP_cons_neg rest2 hd]
              · rw [if_neg hc]
  | cons s rest ih =>
      intro fuel tail hsegs hlen hstop
      obtain ⟨hne, hdig⟩ := hsegs s (by simp)
      have hjp : joinPre (s :: rest) = '.' :: (s ++ joinPre rest) := rfl
      rw [hjp] at hlen ⊢
      cases fuel with
      | zero => simp at hlen
      | succ fuel =>
          have hnext : ∀ c, (joinPre rest ++ tail).head? = some c → isDig c = false := by
            intro c hc
            cases rest with
            | nil => exact hstop.1 c hc
            | cons q qs =>
                have hq : joinPre (q :: qs) ++ tail = '.' :: (q ++ joinPre qs ++ tail) := by
                  simp [joinPre]
                rw [hq] at hc
                simp at hc
                subst hc
                decide
          have hspan : spanP isDig (s ++ (joinPre rest ++ tail)) = (s, joinPre rest ++ tail) :=
            spanP_append_all s (joinPre rest ++ tail) hdig hnext
          rw [List.cons_append]
          simp only [munchDotRunsFuel]
          rw [if_pos trivial, List.append_assoc, hspan]
          cases s with
          | nil => exact absurd rfl hne
          | cons c0 srun =>
              have hrec := ih fuel tail (fun x hx => hsegs x (by simp [hx]))
                (by simp at hlen ⊢; omega) hstop
              dsimp only
              rw [hrec]
              simp

lemma munchBase_wf (segs : List (List Char)) (tail : List Char)
    (hne : segs ≠ []) (hsegs : ∀ s ∈ segs, s ≠ [] ∧ ∀ c ∈ s, isDig c = true)
    (hstop : BaseStop tail) :
    munchBase (joinSep '.' segs ++ tail) = some (joinSep '.' segs, tail) := by
  cases segs with
  | nil => exact absurd rfl hne
  | cons s rest =>
      obtain ⟨hsne, hdig⟩ := hsegs s (by simp)
      rw [joinSep_cons_eq]
      have hnext : ∀ c, (joinPre rest ++ tail).head? = some c → isDig c = false := by
        intro c hc
        cases rest with
        | nil => exact hstop.1 c hc
        | cons q qs =>
            have : joinPre (q :: qs) ++ tail = '.' :: (q ++ joinPre qs ++ tail) := by
              simp [joinPre]
            rw [this] at hc
            simp at hc
            subst hc
            decide
      unfold munchBase
      rw [List.append_assoc,
        spanP_append_all s (joinPre rest ++ tail) hdig hnext]
      cases s with
      | nil => exact absurd rfl hsne
      | cons c0 srun =>
          dsimp only
          unfold munchDotRuns
          rw [munchDotRunsFuel_spec rest ((joinPre rest ++ tail).length) tail
            (fun x hx => hsegs x (by simp [hx]))
            (by rw [List.length_append]; omega) hstop]
          simp

/-!
## Shape lemmas for the stage / revision / epoch tails of the default
pattern, on the strings produced by the serializers.
-/

lemma option_some_orElse {α : Type} (a : α) (y : Option α) : (some a <|> y) = some a := rfl

lemma option_none_orElse {α : Type} (y : Option α) : ((none : Option α) <|> y) = y := rfl

lemma isAlpha_false_of_sep {c : Char} (h : isSepChar c = true) : isAlpha c = false := by
  unfold isSepChar at h
  have h' := of_decide_eq_true h
  rcases h' with h' | h' | h' <;> subst h' <;> decide

lemma matchRevThen_nil : matchRevThen [] = some (none, none) := rfl

lemma matchRevThen_digits (rv : List Char) (hne : rv ≠ [])
    (hdig : ∀ c ∈ rv, isDig c = true) :
    matchRevThen rv = some (some rv, none) := by
  unfold matchRevThen
  rw [spanP_all isDig rv hdig]
  cases rv with
  | nil => exact absurd rfl hne
  | cons c cs => rfl

lemma matchRevTail_nil : matchRevTail [] = some (none, none) := rfl

lemma matchRevTail_digits (rv : List Char) (hne : rv ≠ [])
    (hdig : ∀ c ∈ rv, isDig c = true) :
    matchRevTail rv = some (some rv, none) := by
  cases rv with
  | nil => exact absurd rfl hne
  | cons c cs =>
      have hc : isDig c = true := hdig c (by simp)
      simp only [matchRevTail, isSepChar_false_of_dig hc, Bool.false_eq_true, if_false]
      exact matchRevThen_digits (c :: cs) hne hdig

lemma matchRevTail_sep (sep : Char) (rv : List Char) (hsep : isSepChar sep = true)
    (hne : rv ≠ []) (hdig : ∀ c ∈ rv, isDig c = true) :
    matchRevTail (sep :: rv) = some (some rv, none) := by
  simp only [matchRevTail]
  rw [hsep, if_pos rfl, matchRevThen_digits rv hne hdig, option_some_orElse]

/-- The stage core on an alpha run followed by a revision tail. -/
lemma matchStageCore_stage (st tail : List Char) (hne : st ≠ [])
    (halpha : ∀ c ∈ st, isAlpha c = true)
    (hstop : ∀ c, tail.head? = some c → isAlpha c = false)
    (rv tg : Option (List Char))
    (htail : matchRevTail tail = some (rv, tg)) :
    matchStageCore (st ++ tail) = some (some st, rv, tg) := by
  unfold matchStageCore
  rw [spanP_append_all st tail halpha hstop]
  cases st with
  | nil => exact absurd rfl hne
  | cons c cs =>
      dsimp only
      rw [htail]
      rfl

/-- The optional stage group when the stage follows the base directly. -/
lemma matchStageTail_nosep (st tail : List Char) (hne : st ≠ [])
    (halpha : ∀ c ∈ st, isAlpha c = true)
    (hstop : ∀ c, tail.head? = some c → isAlpha c = false)
    (rv tg : Option (List Char))
    (htail : matchRevTail tail = some (rv, tg)) :
    matchStageTail (st ++ tail) = some (some st, rv, tg) := by
  have hcore := matchStageCore_stage st tail hne halpha hstop rv tg htail
  cases st with
  | nil => exact absurd rfl hne
  | cons c cs =>
      have hc : isAlpha c = true := halpha c (by simp)
      rw [List.cons_append] at hcore ⊢
      simp only [matchStageTail, isSepChar_false_of_alpha hc, Bool.false_eq_true, if_false]
      rw [hcore, option_some_orElse]

/-- The optional stage group when the stage is preceded by a separator. -/
lemma matchStageTail_sep (sep : Char) (st tail : List Char) (hsep : isSepChar sep = true)
    (hne : st ≠ []) (halpha : ∀ c ∈ st, isAlpha c = true)
    (hstop : ∀ c, tail.head? = some c → isAlpha c = false)
    (rv tg : Option (List Char))
    (htail : matchRevTail tail = some (rv, tg)) :
    matchStageTail (sep :: (st ++ tail)) = some (some st, rv, tg) := by
  have hcore := matchStageCore_stage st tail hne halpha hstop rv tg htail
  simp only [matchStageTail]
  rw [hsep, if_pos rfl, hcore, option_some_orElse, option_some_orElse]

lemma matchStageTail_nil : matchStageTail [] = some (none, none, none) := rfl

/-- The whole pattern after the base group, epoch capture decided. -/
lemma matchFromBase_shape (ep : Option (List Char)) (segs : List (List Char))
    (tail : List Char) (hne : segs ≠ [])
    (hsegs : ∀ s ∈ segs, s ≠ [] ∧ ∀ c ∈ s, isDig c = true)
    (hstop : BaseStop tail) (stg rv tg : Option (List Char))
    (htail : matchStageTail tail = some (stg, rv, tg)) :
    matchFromBase ep (joinSep '.' segs ++ tail) =
      some ⟨some (joinSep '.' segs), stg, rv, tg, ep⟩ := by
  unfold matchFromBase
  rw [munchBase_wf segs tail hne hsegs hstop]
  dsimp only [Option.bind]
  rw [htail]
  rfl

/-- The whole default pattern on a well-formed base with no epoch group
in the input. -/
lemma matchVersionSource_shape (segs : List (List Char)) (tail : List Char)
    (hne : segs ≠ []) (hsegs : ∀ s ∈ segs, s ≠ [] ∧ ∀ c ∈ s, isDig c = true)
    (hstop : BaseStop tail)
    (hbang : ∀ c, tail.head? = some c → c ≠ '!')
    (stg rv tg : Option (List Char))
    (htail : matchStageTail tail = some (stg, rv, tg)) :
    matchVersionSource ('v' :: (joinSep '.' segs ++ tail)) =
      some ⟨some (joinSep '.' segs), stg, rv, tg, none⟩ := by
  simp only [matchVersionSource]
  rw [if_pos trivial]
  cases segs with
  | nil => exact absurd rfl hne
  | cons s rest =>
      obtain ⟨hsne, hdig⟩ := hsegs s (by simp)
      rw [joinSep_cons_eq]
      have hnext : ∀ c, (joinPre rest ++ tail).head? = some c → isDig c = false := by
        intro c hc
        cases rest with
        | nil => exact hstop.1 c hc
        | cons q qs =>
            have : joinPre (q :: qs) ++ tail = '.' :: (q ++ joinPre qs ++ tail) := by
              simp [joinPre]
            rw [this] at hc
            simp at hc
            subst hc
            decide
      have hnb : ∀ c, (joinPre rest ++ tail).head? = some c → c ≠ '!' := by
        intro c hc
        cases rest with
        | nil => exact hbang c hc
        | cons q qs =>
            have : joinPre (q :: qs) ++ tail = '.' :: (q ++ joinPre qs ++ tail) := by
              simp [joinPre]
            rw [this] at hc
            simp at hc
            subst hc
            decide
      rw [List.append_assoc, spanP_append_all s (joinPre rest ++ tail) hdig hnext]
      have hfb : matchFromBase none (joinSep '.' (s :: rest) ++ tail) =
          some ⟨some (joinSep '.' (s :: rest)), stg, rv, tg, none⟩ :=
        matchFromBase_shape none (s :: rest) tail hne hsegs hstop stg rv tg htail
      rw [joinSep_cons_eq, List.append_assoc] at hfb
      cases s with
      | nil => exact absurd rfl hsne
      | cons c0 srun =>
          cases hX : joinPre rest ++ tail with
          | nil =>
              dsimp only
              rw [hX] at hfb
              rw [option_none_orElse, hfb]
          | cons x xs =>
              have hxb : x ≠ '!' := hnb x (by rw [hX]; rfl)
              dsimp only
              rw [if_neg hxb, option_none_orElse]
              rw [hX] at hfb
              rw [hfb]

/-- The whole default pattern with the epoch group present. -/
lemma matchVersionSource_epoch_shape (ed : List Char) (segs : List (List Char))
    (tail : List Char) (hedne : ed ≠ []) (heddig : ∀ c ∈ ed, isDig c = true)
    (hne : segs ≠ []) (hsegs : ∀ s ∈ segs, s ≠ [] ∧ ∀ c ∈ s, isDig c = true)
    (hstop : BaseStop tail) (stg rv tg : Option (List Char))
    (htail : matchStageTail tail = some (stg, rv, tg)) :
    matchVersionSource ('v' :: (ed ++ '!' :: (joinSep '.' segs ++ tail))) =
      some ⟨some (joinSep '.' segs), stg, rv, tg, some ed⟩ := by
  simp only [matchVersionSource]
  rw [if_pos trivial]
  rw [spanP_append_all ed ('!' :: (joinSep '.' segs ++ tail)) heddig
    (by intro c hc; simp at hc; subst hc; decide)]
  cases ed with
  | nil => exact absurd rfl hedne
  | cons e es =>
      dsimp only
      rw [if_pos rfl,
        matchFromBase_shape (some (e :: es)) segs tail hne hsegs hstop stg rv tg htail,
        option_some_orElse]

/-- The scanning loop on a single matching source with a base group. -/
lemma matchScan_ok_single (p : Pattern) (src b : List Char) (m : PatternMatch)
    (hexec : p.exec src = some m) (hbg : p.hasGroupBase = true) (hb : m.base = some b) :
    matchScan p [src] [] = .ok (some (src, b, m, [])) := by
  simp only [matchScan]
  rw [hexec]
  dsimp only
  rw [hbg, if_pos rfl, hb]

/-- `_match_version_pattern` on a single source that the default pattern
matches with numeric revision/epoch captures. -/
lemma match_version_pattern_ok (out b : List Char) (stg rv ep : Option (List Char))
    (hm : matchVersionSource ('v' :: out) = some ⟨some b, stg, rv, none, ep⟩)
    (hrv : ∀ r, rv = some r → r ≠ [] ∧ ∀ c ∈ r, isDig c = true)
    (hep : ∀ e, ep = some e → e ≠ [] ∧ ∀ c ∈ e, isDig c = true) :
    _match_version_pattern defaultPattern ['v' :: out] true =
      Except.ok ⟨'v' :: out, b,
        stg.map (fun st => (st, rv.map (fun (r : List Char) => (charsToNat r : Int)))),
        [], none, ep.map (fun (e : List Char) => (charsToNat e : Int))⟩ := by
  have hscan := matchScan_ok_single defaultPattern ('v' :: out) b
    ⟨some b, stg, rv, none, ep⟩ hm rfl rfl
  unfold _match_version_pattern
  dsimp only
  rw [if_pos rfl]
  have hiter : List.take 1 ['v' :: out] = ['v' :: out] := rfl
  rw [hiter, hscan, except_bind_ok]
  dsimp only
  cases stg with
  | none =>
      dsimp only [Option.map]
      rw [except_pure, except_bind_ok]
      cases ep with
      | none => rfl
      | some e =>
          obtain ⟨hene, hedig⟩ := hep e rfl
          dsimp only
          rw [pyInt_of_digits e hene hedig]
          rfl
  | some st =>
      cases rv with
      | none =>
          dsimp only [Option.map]
          rw [except_pure, except_bind_ok]
          cases ep with
          | none => rfl
          | some e =>
              obtain ⟨hene, hedig⟩ := hep e rfl
              dsimp only
              rw [pyInt_of_digits e hene hedig]
              rfl
      | some r =>
          obtain ⟨hrne, hrdig⟩ := hrv r rfl
          dsimp only [Option.map]
          rw [pyInt_of_digits r hrne hrdig]
          dsimp only
          rw [except_pure, except_bind_ok]
          cases ep with
          | none => rfl
          | some e =>
              obtain ⟨hene, hedig⟩ := hep e rfl
              dsimp only
              rw [pyInt_of_digits e hene hedig]
              rfl

/-- `Version.parse` on an input matched by the default pattern after the
`v` prefix, with no tagged-metadata group. -/
lemma parse_of_match (out b : List Char) (stg rv ep : Option (List Char))
    (hhead : out.head? ≠ some 'v')
    (hm : matchVersionSource ('v' :: out) = some ⟨some b, stg, rv, none, ep⟩)
    (hrv : ∀ r, rv = some r → r ≠ [] ∧ ∀ c ∈ r, isDig c = true)
    (hep : ∀ e, ep = some e → e ≠ [] ∧ ∀ c ∈ e, isDig c = true) :
    Version.parse out =
      Version.make b (stg.map (fun st => (st, rv.map (fun (r : List Char) => (charsToNat r : Int)))))
        0 none none none (ep.map (fun (e : List Char) => (charsToNat e : Int))) none none := by
  unfold Version.parse
  dsimp only
  rw [if_neg hhead, match_version_pattern_ok out b stg rv ep hm hrv hep]
  rfl

/-!
## Round-trip helpers: rendering at distance 0 and numeric conversions
-/

lemma intToChars_digits {r : Int} (h : 0 ≤ r) :
    intToChars r ≠ [] ∧ ∀ c ∈ intToChars r, isDig c = true := by
  obtain ⟨n, rfl⟩ := Int.eq_ofNat_of_zero_le h
  rw [intToChars_ofNat]
  exact ⟨natToChars_ne_nil n, natToChars_all_digits n⟩

lemma charsToNat_intToChars {r : Int} (h : 0 ≤ r) :
    ((charsToNat (intToChars r) : Nat) : Int) = r := by
  obtain ⟨n, rfl⟩ := Int.eq_ofNat_of_zero_le h
  rw [intToChars_ofNat, charsToNat_natToChars]

lemma serialize_semver_ok_check {base : List Char} {pre metadata : List (List Char)}
    {out : List Char} (h : serialize_semver base pre metadata = Except.ok out) :
    check_version (base ++ (if pre ≠ [] then '-' :: joinSep '.' pre else [])
      ++ (if metadata ≠ [] then '+' :: joinSep '.' metadata else [])) Style.SemVer =
      Except.ok () := by
  unfold serialize_semver at h
  dsimp only at h
  cases hc : check_version (base ++ (if pre ≠ [] then '-' :: joinSep '.' pre else [])
      ++ (if metadata ≠ [] then '+' :: joinSep '.' metadata else [])) Style.SemVer with
  | ok u => cases u; rfl
  | error e => rw [hc] at h; simp [Except.map] at h

lemma serialize_semver_ok_out {base : List Char} {pre metadata : List (List Char)}
    {out : List Char} (h : serialize_semver base pre metadata = Except.ok out) :
    out = base ++ (if pre ≠ [] then '-' :: joinSep '.' pre else [])
      ++ (if metadata ≠ [] then '+' :: joinSep '.' metadata else []) := by
  unfold serialize_semver at h
  dsimp only at h
  cases hc : check_version (base ++ (if pre ≠ [] then '-' :: joinSep '.' pre else [])
      ++ (if metadata ≠ [] then '+' :: joinSep '.' metadata else [])) Style.SemVer with
  | ok u =>
      rw [hc] at h
      cases u
      simpa [Except.map] using h.symm
  | error e =>
      rw [hc] at h
      simp [Except.map] at h

lemma serialize_pvp_ok_check {base : List Char} {metadata : List (List Char)}
    {out : List Char} (h : serialize_pvp base metadata = Except.ok out) :
    check_version (base ++ (if metadata ≠ [] then '-' :: joinSep '-' metadata else []))
      Style.Pvp = Except.ok () := by
  unfold serialize_pvp at h
  dsimp only at h
  cases hc : check_version (base ++ (if metadata ≠ [] then '-' :: joinSep '-' metadata
      else [])) Style.Pvp with
  | ok u => cases u; rfl
  | error e => rw [hc] at h; simp [Except.map] at h

lemma serialize_pvp_ok_out {base : List Char} {metadata : List (List Char)}
    {out : List Char} (h : serialize_pvp base metadata = Except.ok out) :
    out = base ++ (if metadata ≠ [] then '-' :: joinSep '-' metadata else []) := by
  unfold serialize_pvp at h
  dsimp only at h
  cases hc : check_version (base ++ (if metadata ≠ [] then '-' :: joinSep '-' metadata
      else [])) Style.Pvp with
  | ok u =>
      rw [hc] at h
      cases u
      simpa [Except.map] using h.symm
  | error e =>
      rw [hc] at h
      simp [Except.map] at h

/-- At distance 0 with an ordinary (or absent) stage, the PEP 440 path
renders exactly `renderPep440` with no post/dev parts. -/
lemma serialize_dist0_pep440_plain {v : Version} {out : List Char}
    (hd : v.distance = 0)
    (hnp : v.stage ≠ some "post".toList) (hnd : v.stage ≠ some "dev".toList)
    (h : Version.serialize v none false none (some Style.Pep440) false false = Except.ok out) :
    out = renderPep440 v.base v.stage v.revision none none v.epoch [] := by
  unfold Version.serialize at h
  simp only [Bool.false_eq_true, false_and, if_false, reduceIte, hd, hnp, hnd,
    (show ¬((0 : Int) > 0) by decide),
    except_pure, except_bind_ok, Option.getD_some, if_true,
    List.nil_append, List.append_nil, ne_eq, not_true_eq_false, and_false, or_false,
    false_or, not_false_eq_true, and_true, reduceCtorEq, ite_self] at h
  cases hsp : serialize_pep440 v.base v.stage v.revision none none v.epoch [] with
  | error e => rw [hsp] at h; simp [except_bind_err] at h
  | ok o =>
      rw [hsp] at h
      have hck := serialize_pep440_ok_check hsp
      have hout := serialize_pep440_ok_out hsp
      subst hout
      rw [except_bind_ok, hck, except_bind_ok] at h
      simp only [except_pure, Except.ok.injEq] at h
      exact h.symm

/-- At distance 0 with stage "post" and a revision, the PEP 440 path
renders the revision as a post part. -/
lemma serialize_dist0_pep440_post {v : Version} {r : Int} {out : List Char}
    (hd : v.distance = 0) (hst : v.stage = some "post".toList) (hrev : v.revision = some r)
    (h : Version.serialize v none false none (some Style.Pep440) false false = Except.ok out) :
    out = renderPep440 v.base none (some r) (some r) none v.epoch [] := by
  unfold Version.serialize at h
  simp only [Bool.false_eq_true, false_and, if_false, reduceIte, hd, hst, hrev,
    (show ¬((0 : Int) > 0) by decide),
    except_pure, except_bind_ok, Option.getD_some, if_true,
    List.nil_append, List.append_nil, ne_eq, not_true_eq_false, and_false, or_false,
    false_or, not_false_eq_true, and_true, reduceCtorEq, ite_self] at h
  cases hsp : serialize_pep440 v.base none (some r) (some r) none v.epoch [] with
  | error e => rw [hsp] at h; simp [except_bind_err] at h
  | ok o =>
      rw [hsp] at h
      have hck := serialize_pep440_ok_check hsp
      have hout := serialize_pep440_ok_out hsp
      subst hout
      rw [except_bind_ok, hck, except_bind_ok] at h
      simp only [except_pure, Except.ok.injEq] at h
      exact h.symm

/-- At distance 0 with stage "dev" and a revision, the PEP 440 path
renders the revision as a dev part. -/
lemma serialize_dist0_pep440_dev {v : Version} {r : Int} {out : List Char}
    (hd : v.distance = 0) (hst : v.stage = some "dev".toList) (hrev : v.revision = some r)
    (h : Version.serialize v none false none (some Style.Pep440) false false = Except.ok out) :
    out = renderPep440 v.base none (some r) none (some r) v.epoch [] := by
  unfold Version.serialize at h
  simp only [Bool.false_eq_true, false_and, if_false, reduceIte, hd, hst, hrev,
    (show ¬((0 : Int) > 0) by decide),
    (show ¬("dev".toList = "post".toList) by decide), Option.some.injEq,
    except_pure, except_bind_ok, Option.getD_some, if_true,
    List.nil_append, List.append_nil, ne_eq, not_true_eq_false, and_false, or_false,
    false_or, not_false_eq_true, and_true, reduceCtorEq, ite_self] at h
  cases hsp : serialize_pep440 v.base none (some r) none (some r) v.epoch [] with
  | error e => rw [hsp] at h; simp [except_bind_err] at h
  | ok o =>
      rw [hsp] at h
      have hck := serialize_pep440_ok_check hsp
      have hout := serialize_pep440_ok_out hsp
      subst hout
      rw [except_bind_ok, hck, except_bind_ok] at h
      simp only [except_pure, Except.ok.injEq] at h
      exact h.symm

/-- At distance 0 with no stage, the SemVer path renders the bare base. -/
lemma serialize_dist0_semver_plain {v : Version} {out : List Char}
    (hd : v.distance = 0) (hst : v.stage = none)
    (h : Version.serialize v none false none (some Style.SemVer) false false = Except.ok out) :
    out = v.base := by
  unfold Version.serialize at h
  simp only [Bool.false_eq_true, false_and, if_false, reduceIte, hd, hst,
    (show ¬((0 : Int) > 0) by decide),
    except_pure, except_bind_ok, Option.getD_some, if_true,
    List.nil_append, List.append_nil, ne_eq, not_true_eq_false, and_false, or_false,
    false_or, not_false_eq_true, and_true, reduceCtorEq, ite_self] at h
  cases hsp : serialize_semver v.base [] [] with
  | error e => rw [hsp] at h; simp [except_bind_err] at h
  | ok o =>
      rw [hsp] at h
      have hck := serialize_semver_ok_check hsp
      have hout := serialize_semver_ok_out hsp
      subst hout
      rw [except_bind_ok, hck, except_bind_ok] at h
      simp only [except_pure, Except.ok.injEq] at h
      rw [← h]
      simp

/-- At distance 0 with a stage and no revision, the SemVer path renders
base, a dash and the stage. -/
lemma serialize_dist0_semver_stage {v : Version} {st : List Char} {out : List Char}
    (hd : v.distance = 0) (hst : v.stage = some st) (hrev : v.revision = none)
    (h : Version.serialize v none false none (some Style.SemVer) false false = Except.ok out) :
    out = v.base ++ '-' :: st := by
  unfold Version.serialize at h
  simp only [Bool.false_eq_true, false_and, if_false, reduceIte, hd, hst, hrev,
    (show ¬((0 : Int) > 0) by decide),
    except_pure, except_bind_ok, Option.getD_some, if_true,
    List.nil_append, List.append_nil, ne_eq, not_true_eq_false, and_false, or_false,
    false_or, not_false_eq_true, and_true, reduceCtorEq, ite_self] at h
  cases hsp : serialize_semver v.base [st] [] with
  | error e => rw [hsp] at h; simp [except_bind_err] at h
  | ok o =>
      rw [hsp] at h
      have hck := serialize_semver_ok_check hsp
      have hout := serialize_semver_ok_out hsp
      subst hout
      rw [except_bind_ok, hck, except_bind_ok] at h
      simp only [except_pure, Except.ok.injEq] at h
      rw [← h]
      simp [joinSep]

/-- At distance 0 with a stage and a revision, the SemVer path renders
base, a dash, the stage, a dot and the revision. -/
lemma serialize_dist0_semver_stagerev {v : Version} {st : List Char} {r : Int}
    {out : List Char}
    (hd : v.distance = 0) (hst : v.stage = some st) (hrev : v.revision = some r)
    (h : Version.serialize v none false none (some Style.SemVer) false false = Except.ok out) :
    out = v.base ++ '-' :: (st ++ '.' :: intToChars r) := by
  unfold Version.serialize at h
  simp only [Bool.false_eq_true, false_and, if_false, reduceIte, hd, hst, hrev,
    (show ¬((0 : Int) > 0) by decide),
    except_pure, except_bind_ok, Option.getD_some, if_true,
    List.nil_append, List.append_nil, ne_eq, not_true_eq_false, and_false, or_false,
    false_or, not_false_eq_true, and_true, reduceCtorEq, ite_self, List.cons_append] at h
  cases hsp : serialize_semver v.base [st, intToChars r] [] with
  | error e => rw [hsp] at h; simp [except_bind_err] at h
  | ok o =>
      rw [hsp] at h
      have hck := serialize_semver_ok_check hsp
      have hout := serialize_semver_ok_out hsp
      subst hout
      rw [except_bind_ok, hck, except_bind_ok] at h
      simp only [except_pure, Except.ok.injEq] at h
      rw [← h]
      simp [joinSep]

/-- At distance 0 with no stage, the PVP path renders the bare base. -/
lemma serialize_dist0_pvp_plain {v : Version} {out : List Char}
    (hd : v.distance = 0) (hst : v.stage = none)
    (h : Version.serialize v none false none (some Style.Pvp) false false = Except.ok out) :
    out = v.base := by
  unfold Version.serialize at h
  simp only [Bool.false_eq_true, false_and, if_false, reduceIte, hd, hst,
    (show ¬((0 : Int) > 0) by decide),
    except_pure, except_bind_ok, Option.getD_some, if_true,
    List.nil_append, List.append_nil, ne_eq, not_true_eq_false, and_false, or_false,
    false_or, not_false_eq_true, and_true, reduceCtorEq, ite_self] at h
  cases hsp : serialize_pvp v.base [] with
  | error e => rw [hsp] at h; simp [except_bind_err] at h
  | ok o =>
      rw [hsp] at h
      have hck := serialize_pvp_ok_check hsp
      have hout := serialize_pvp_ok_out hsp
      subst hout
      rw [except_bind_ok, hck, except_bind_ok] at h
      simp only [except_pure, Except.ok.injEq] at h
      rw [← h]
      simp

/-- At distance 0 with a stage and no revision, the PVP path renders
base, a dash and the stage. -/
lemma serialize_dist0_pvp_stage {v : Version} {st : List Char} {out : List Char}
    (hd : v.distance = 0) (hst : v.stage = some st) (hrev : v.revision = none)
    (h : Version.serialize v none false none (some Style.Pvp) false false = Except.ok out) :
    out = v.base ++ '-' :: st := by
  unfold Version.serialize at h
  simp only [Bool.false_eq_true, false_and, if_false, reduceIte, hd, hst, hrev,
    (show ¬((0 : Int) > 0) by decide),
    except_pure, except_bind_ok, Option.getD_some, if_true,
    List.nil_append, List.append_nil, ne_eq, not_true_eq_false, and_false, or_false,
    false_or, not_false_eq_true, and_true, reduceCtorEq, ite_self] at h
  cases hsp : serialize_pvp v.base [st] with
  | error e => rw [hsp] at h; simp [except_bind_err] at h
  | ok o =>
      rw [hsp] at h
      have hck := serialize_pvp_ok_check hsp
      have hout := serialize_pvp_ok_out hsp
      subst hout
      rw [except_bind_ok, hck, except_bind_ok] at h
      simp only [except_pure, Except.ok.injEq] at h
      rw [← h]
      simp [joinSep]

/-- At distance 0 with a stage and a revision, the PVP path renders
base, a dash, the stage, another dash and the revision. -/
lemma serialize_dist0_pvp_stagerev {v : Version} {st : List Char} {r : Int}
    {out : List Char}
    (hd : v.distance = 0) (hst : v.stage = some st) (hrev : v.revision = some r)
    (h : Version.serialize v none false none (some Style.Pvp) false false = Except.ok out) :
    out = v.base ++ '-' :: (st ++ '-' :: intToChars r) := by
  unfold Version.serialize at h
  simp only [Bool.false_eq_true, false_and, if_false, reduceIte, hd, hst, hrev,
    (show ¬((0 : Int) > 0) by decide),
    except_pure, except_bind_ok, Option.getD_some, if_true,
    List.nil_append, List.append_nil, ne_eq, not_true_eq_false, and_false, or_false,
    false_or, not_false_eq_true, and_true, reduceCtorEq, ite_self, List.cons_append] at h
  cases hsp : serialize_pvp v.base [st, intToChars r] with
  | error e => rw [hsp] at h; simp [except_bind_err] at h
  | ok o =>
      rw [hsp] at h
      have hck := serialize_pvp_ok_check hsp
      have hout := serialize_pvp_ok_out hsp
      subst hout
      rw [except_bind_ok, hck, except_bind_ok] at h
      simp only [except_pure, Except.ok.injEq] at h
      rw [← h]
      simp [joinSep]

/-- `Version.parse` on an (optional epoch) + well-formed-base + tail
string, for any tail the stage group matches without tagged metadata. -/
lemma parse_wellformed (eopt : Option (List Char)) (segs : List (List Char))
    (tail : List Char)
    (hedig : ∀ e, eopt = some e → e ≠ [] ∧ ∀ c ∈ e, isDig c = true)
    (hne : segs ≠ []) (hsegs : ∀ s ∈ segs, s ≠ [] ∧ ∀ c ∈ s, isDig c = true)
    (hstop : BaseStop tail) (hbang : ∀ c, tail.head? = some c → c ≠ '!')
    (stg rv : Option (List Char))
    (hrv : ∀ r, rv = some r → r ≠ [] ∧ ∀ c ∈ r, isDig c = true)
    (htail : matchStageTail tail = some (stg, rv, none)) :
    Version.parse (match eopt with
      | some ed => ed ++ '!' :: (joinSep '.' segs ++ tail)
      | none => joinSep '.' segs ++ tail) =
      Version.make (joinSep '.' segs)
        (stg.map (fun st => (st, rv.map (fun (r : List Char) => (charsToNat r : Int)))))
        0 none none none (eopt.map (fun (e : List Char) => (charsToNat e : Int))) none none := by
  cases eopt with
  | none =>
      have hm := matchVersionSource_shape segs tail hne hsegs hstop hbang stg rv none htail
      have hhead : (joinSep '.' segs ++ tail).head? ≠ some 'v' := by
        cases segs with
        | nil => exact absurd rfl hne
        | cons s rest =>
            obtain ⟨hsne, hdig⟩ := hsegs s (by simp)
            cases s with
            | nil => exact absurd rfl hsne
            | cons c cs =>
                rw [joinSep_cons_eq]
                intro hc
                simp only [List.cons_append, List.head?, Option.some.injEq] at hc
                exact ne_v_of_dig (hdig c (by simp)) hc
      exact parse_of_match _ _ stg rv none hhead hm hrv (by intro e he; cases he)
  | some ed =>
      obtain ⟨hedne, heddig⟩ := hedig ed rfl
      have hm := matchVersionSource_epoch_shape ed segs tail hedne heddig hne hsegs hstop
        stg rv none htail
      have hhead : (ed ++ '!' :: (joinSep '.' segs ++ tail)).head? ≠ some 'v' := by
        cases ed with
        | nil => exact absurd rfl hedne
        | cons c cs =>
            intro hc
            simp only [List.cons_append, List.head?, Option.some.injEq] at hc
            exact ne_v_of_dig (heddig c (by simp)) hc
      exact parse_of_match _ _ stg rv (some ed) hhead hm hrv
        (by intro e he; cases he; exact ⟨hedne, heddig⟩)

lemma isDig_false_of_sep {c : Char} (h : isSepChar c = true) : isDig c = false := by
  unfold isSepChar at h
  have h' := of_decide_eq_true h
  rcases h' with h' | h' | h' <;> subst h' <;> decide

lemma ne_bang_of_sep {c : Char} (h : isSepChar c = true) : c ≠ '!' := by
  unfold isSepChar at h
  have h' := of_decide_eq_true h
  rcases h' with h' | h' | h' <;> subst h' <;> decide

lemma head_digit_not_alpha {xs : List Char} (hd : ∀ c ∈ xs, isDig c = true) :
    ∀ c, xs.head? = some c → isAlpha c = false := by
  intro c hc
  cases xs with
  | nil => cases hc
  | cons x t =>
      simp only [List.head?, Option.some.injEq] at hc
      subst hc
      exact isAlpha_of_false_of_isDig (hd x (by simp))

lemma baseStop_nil : BaseStop [] := by
  unfold BaseStop
  constructor
  · intro c hc
    cases hc
  · intro d r he
    cases he

/-- A separator, an alphabetic stage and a revision tail stop the base
munch and cannot start the epoch's `!`. -/
lemma tail_props_sep (sep : Char) (st rtl : List Char) (hsep : isSepChar sep = true)
    (hstne : st ≠ []) (hsta : ∀ c ∈ st, isAlpha c = true)
    (rv tg : Option (List Char)) (hrt : matchRevTail rtl = some (rv, tg))
    (hrtlhead : ∀ c, rtl.head? = some c → isAlpha c = false) :
    BaseStop (sep :: (st ++ rtl)) ∧
    (∀ c, (sep :: (st ++ rtl)).head? = some c → c ≠ '!') ∧
    matchStageTail (sep :: (st ++ rtl)) = some (some st, rv, tg) := by
  unfold BaseStop
  refine ⟨⟨?_, ?_⟩, ?_, ?_⟩
  · intro c hc
    simp only [List.head?, Option.some.injEq] at hc
    subst hc
    exact isDig_false_of_sep hsep
  · intro d rest2 he
    cases st with
    | nil => exact absurd rfl hstne
    | cons a t =>
        rw [List.cons_append] at he
        injection he with h1 h2
        injection h2 with h3 _
        subst h3
        exact isDig_of_false_of_isAlpha (hsta a (by simp))
  · intro c hc
    simp only [List.head?, Option.some.injEq] at hc
    subst hc
    exact ne_bang_of_sep hsep
  · exact matchStageTail_sep sep st rtl hsep hstne hsta hrtlhead rv tg hrt

/-- An alphabetic stage directly after the base, followed by a digit
revision, stops the base munch and cannot start the epoch's `!`. -/
lemma tail_props_nosep (st rch : List Char)
    (hstne : st ≠ []) (hsta : ∀ c ∈ st, isAlpha c = true)
    (hrne : rch ≠ []) (hrd : ∀ c ∈ rch, isDig c = true) :
    BaseStop (st ++ rch) ∧
    (∀ c, (st ++ rch).head? = some c → c ≠ '!') ∧
    matchStageTail (st ++ rch) = some (some st, some rch, none) := by
  unfold BaseStop
  refine ⟨⟨?_, ?_⟩, ?_, ?_⟩
  · intro c hc
    cases st with
    | nil => exact absurd rfl hstne
    | cons a t =>
        rw [List.cons_append] at hc
        simp only [List.head?, Option.some.injEq] at hc
        subst hc
        exact isDig_of_false_of_isAlpha (hsta a (by simp))
  · intro d rest2 he
    cases st with
    | nil => exact absurd rfl hstne
    | cons a t =>
        rw [List.cons_append] at he
        injection he with h1 _
        have : isAlpha '.' = true := h1 ▸ hsta a (by simp)
        exact absurd this (by decide)
  · intro c hc
    cases st with
    | nil => exact absurd rfl hstne
    | cons a t =>
        rw [List.cons_append] at hc
        simp only [List.head?, Option.some.injEq] at hc
        subst hc
        exact ne_bang_of_alpha (hsta a (by simp))
  · exact matchStageTail_nosep st rch hstne hsta (head_digit_not_alpha hrd) (some rch) none
      (matchRevTail_digits rch hrne hrd)

lemma parse_wf_noepoch (segs : List (List Char)) (tail : List Char)
    (hne : segs ≠ []) (hsegs : ∀ s ∈ segs, s ≠ [] ∧ ∀ c ∈ s, isDig c = true)
    (hstop : BaseStop tail) (hbang : ∀ c, tail.head? = some c → c ≠ '!')
    (stg rv : Option (List Char))
    (hrv : ∀ r, rv = some r → r ≠ [] ∧ ∀ c ∈ r, isDig c = true)
    (htail : matchStageTail tail = some (stg, rv, none)) :
    Version.parse (joinSep '.' segs ++ tail) =
      Version.make (joinSep '.' segs)
        (stg.map (fun st => (st, rv.map (fun (r : List Char) => (charsToNat r : Int)))))
        0 none none none none none none :=
  parse_wellformed none segs tail (fun _ he => Option.noConfusion he)
    hne hsegs hstop hbang stg rv hrv htail

lemma parse_wf_epoch (ed : List Char) (segs : List (List Char)) (tail : List Char)
    (hedne : ed ≠ []) (heddig : ∀ c ∈ ed, isDig c = true)
    (hne : segs ≠ []) (hsegs : ∀ s ∈ segs, s ≠ [] ∧ ∀ c ∈ s, isDig c = true)
    (hstop : BaseStop tail) (hbang : ∀ c, tail.head? = some c → c ≠ '!')
    (stg rv : Option (List Char))
    (hrv : ∀ r, rv = some r → r ≠ [] ∧ ∀ c ∈ r, isDig c = true)
    (htail : matchStageTail tail = some (stg, rv, none)) :
    Version.parse (ed ++ '!' :: (joinSep '.' segs ++ tail)) =
      Version.make (joinSep '.' segs)
        (stg.map (fun st => (st, rv.map (fun (r : List Char) => (charsToNat r : Int)))))
        0 none none none (some ((charsToNat ed : Nat) : Int)) none none :=
  parse_wellformed (some ed) segs tail
    (by intro e he; injection he with h0; subst h0; exact ⟨hedne, heddig⟩)
    hne hsegs hstop hbang stg rv hrv htail

/-- The parse of an optional-epoch rendering; the epoch value itself is
existential since no round-trip conclusion inspects it. -/
lemma parse_render_epochpart (epoch : Option Int) (heps' : ∀ e, epoch = some e → 0 ≤ e)
    (segs : List (List Char)) (tail : List Char)
    (hne : segs ≠ []) (hsegs : ∀ s ∈ segs, s ≠ [] ∧ ∀ c ∈ s, isDig c = true)
    (hstop : BaseStop tail) (hbang : ∀ c, tail.head? = some c → c ≠ '!')
    (stg rv : Option (List Char))
    (hrv : ∀ r, rv = some r → r ≠ [] ∧ ∀ c ∈ r, isDig c = true)
    (htail : matchStageTail tail = some (stg, rv, none)) :
    ∃ E, Version.parse ((match epoch with
        | some e => intToChars e ++ ['!']
        | none => ([] : List Char)) ++ (joinSep '.' segs ++ tail)) =
      Version.make (joinSep '.' segs)
        (stg.map (fun st => (st, rv.map (fun (r : List Char) => (charsToNat r : Int)))))
        0 none none none E none none := by
  cases epoch with
  | none =>
      refine ⟨none, ?_⟩
      rw [List.nil_append]
      exact parse_wf_noepoch segs tail hne hsegs hstop hbang stg rv hrv htail
  | some e =>
      obtain ⟨hedne, heddig⟩ := intToChars_digits (heps' e rfl)
      refine ⟨some ((charsToNat (intToChars e) : Nat) : Int), ?_⟩
      have hsh : (intToChars e ++ ['!']) ++ (joinSep '.' segs ++ tail) =
          intToChars e ++ '!' :: (joinSep '.' segs ++ tail) := by simp
      rw [hsh]
      exact parse_wf_epoch (intToChars e) segs tail hedne heddig hne hsegs hstop hbang
        stg rv hrv htail

/-- C1 (amended): for a Version with distance 0, a base made of
dot-separated digit runs, an alphabetic stage, and nonnegative revision
and epoch (a revision being required for PEP 440's post/dev stages),
parsing the serialization recovers the base exactly; the stage is
recovered modulo PEP 440's lowercase/alias normalization (exactly under
SemVer and PVP), and the revision is recovered whenever stage and
revision were originally present. -/
theorem c1_parse_serialize_roundtrip
    (v : Version) (S : Style) (segs : List (List Char)) (out : List Char)
    (hd : v.distance = 0)
    (hbase : v.base = joinSep '.' segs)
    (hsne : segs ≠ [])
    (hsegs : ∀ s ∈ segs, s ≠ [] ∧ ∀ c ∈ s, isDig c = true)
    (hstage : ∀ st, v.stage = some st → st ≠ [] ∧ ∀ c ∈ st, isAlpha c = true)
    (hrev : ∀ r, v.revision = some r → 0 ≤ r)
    (heps : ∀ e, v.epoch = some e → 0 ≤ e)
    (hpd : S = Style.Pep440 →
      (v.stage = some "post".toList ∨ v.stage = some "dev".toList) → v.revision ≠ none)
    (h : Version.serialize v none false none (some S) false false = Except.ok out) :
    (Version.parse out).base = v.base ∧
    (∀ st, v.stage = some st →
      (Version.parse out).stage = some (if S = Style.Pep440 then pepAliasStage st else st)) ∧
    (∀ st r, v.stage = some st → v.revision = some r →
      (Version.parse out).revision = some r) := by
  cases S with
  | Pep440 =>
      cases hstv : v.stage with
      | none =>
          have hnp : v.stage ≠ some "post".toList := by
            rw [hstv]
            exact fun hc => Option.noConfusion hc
          have hnd : v.stage ≠ some "dev".toList := by
            rw [hstv]
            exact fun hc => Option.noConfusion hc
          have hout := serialize_dist0_pep440_plain hd hnp hnd h
          subst hout
          rw [hstv]
          have hrr : renderPep440 v.base none v.revision none none v.epoch [] =
              (match v.epoch with
               | some e => intToChars e ++ ['!']
               | none => ([] : List Char)) ++ (joinSep '.' segs ++ ([] : List Char)) := by
            unfold renderPep440
            cases v.epoch <;> simp [hbase]
          rw [hrr]
          obtain ⟨E, hP⟩ := parse_render_epochpart v.epoch heps segs [] hsne hsegs
            baseStop_nil (fun c hc => by cases hc) none none
            (fun r hr0 => Option.noConfusion hr0) matchStageTail_nil
          rw [hP, hbase]
          refine ⟨by simp [Version.make], ?_, ?_⟩
          · intro st0 hst0
            exact Option.noConfusion hst0
          · intro st0 r0 hst0 _
            exact Option.noConfusion hst0
      | some st =>
          by_cases hp : st = "post".toList
          · subst hp
            have hrne : v.revision ≠ none := hpd rfl (Or.inl hstv)
            cases hrvv : v.revision with
            | none => exact absurd hrvv hrne
            | some r =>
                have hr0 : (0 : Int) ≤ r := hrev r hrvv
                obtain ⟨hrchne, hrchd⟩ := intToChars_digits hr0
                have hout := serialize_dist0_pep440_post hd hstv hrvv h
                subst hout
                have hrr : renderPep440 v.base none (some r) (some r) none v.epoch [] =
                    (match v.epoch with
                     | some e => intToChars e ++ ['!']
                     | none => ([] : List Char)) ++
                      (joinSep '.' segs ++ ('.' :: ("post".toList ++ intToChars r))) := by
                  unfold renderPep440
                  cases v.epoch <;>
                    simp [hbase,
                      show (".post".toList : List Char) = '.' :: "post".toList from rfl]
                rw [hrr]
                obtain ⟨hT1, hT2, hT3⟩ := tail_props_sep '.' "post".toList (intToChars r)
                  (by decide) (by decide) (by decide) (some (intToChars r)) none
                  (matchRevTail_digits (intToChars r) hrchne hrchd)
                  (head_digit_not_alpha hrchd)
                obtain ⟨E, hP⟩ := parse_render_epochpart v.epoch heps segs
                  ('.' :: ("post".toList ++ intToChars r)) hsne hsegs hT1 hT2
                  (some "post".toList) (some (intToChars r))
                  (fun r' h0 => by injection h0 with h1; subst h1; exact ⟨hrchne, hrchd⟩)
                  hT3
                rw [hP, hbase]
                refine ⟨by simp [Version.make], ?_, ?_⟩
                · intro st0 hst0
                  injection hst0 with h0
                  subst h0
                  simp [Version.make]
                  decide
                · intro st0 r0 hst0 hrv0
                  injection hrv0 with h0
                  subst h0
                  simp [Version.make]
                  exact charsToNat_intToChars hr0
          · by_cases hdv : st = "dev".toList
            · subst hdv
              have hrne : v.revision ≠ none := hpd rfl (Or.inr hstv)
              cases hrvv : v.revision with
              | none => exact absurd hrvv hrne
              | some r =>
                  have hr0 : (0 : Int) ≤ r := hrev r hrvv
                  obtain ⟨hrchne, hrchd⟩ := intToChars_digits hr0
                  have hout := serialize_dist0_pep440_dev hd hstv hrvv h
                  subst hout
                  have hrr : renderPep440 v.base none (some r) none (some r) v.epoch [] =
                      (match v.epoch with
                       | some e => intToChars e ++ ['!']
                       | none => ([] : List Char)) ++
                        (joinSep '.' segs ++ ('.' :: ("dev".toList ++ intToChars r))) := by
                    unfold renderPep440
                    cases v.epoch <;>
                      simp [hbase,
                        show (".dev".toList : List Char) = '.' :: "dev".toList from rfl]
                  rw [hrr]
                  obtain ⟨hT1, hT2, hT3⟩ := tail_props_sep '.' "dev".toList (intToChars r)
                    (by decide) (by decide) (by decide) (some (intToChars r)) none
                    (matchRevTail_digits (intToChars r) hrchne hrchd)
                    (head_digit_not_alpha hrchd)
                  obtain ⟨E, hP⟩ := parse_render_epochpart v.epoch heps segs
                    ('.' :: ("dev".toList ++ intToChars r)) hsne hsegs hT1 hT2
                    (some "dev".toList) (some (intToChars r))
                    (fun r' h0 => by injection h0 with h1; subst h1; exact ⟨hrchne, hrchd⟩)
                    hT3
                  rw [hP, hbase]
                  refine ⟨by simp [Version.make], ?_, ?_⟩
                  · intro st0 hst0
                    injection hst0 with h0
                    subst h0
                    simp [Version.make]
                    decide
                  · intro st0 r0 hst0 hrv0
                    injection hrv0 with h0
                    subst h0
                    simp [Version.make]
                    exact charsToNat_intToChars hr0
            · have hnp : v.stage ≠ some "post".toList := by
                rw [hstv]
                exact fun hc => hp (Option.some.inj hc)
              have hnd : v.stage ≠ some "dev".toList := by
                rw [hstv]
                exact fun hc => hdv (Option.some.inj hc)
              obtain ⟨hstne, hsta⟩ := hstage st hstv
              obtain ⟨hpane, hpaa⟩ := pepAliasStage_alpha hstne hsta
              have hout := serialize_dist0_pep440_plain hd hnp hnd h
              subst hout
              cases hrvv : v.revision with
              | none =>
                  rw [hstv]
                  have hrr : renderPep440 v.base (some st) none none none v.epoch [] =
                      (match v.epoch with
                       | some e => intToChars e ++ ['!']
                       | none => ([] : List Char)) ++
                        (joinSep '.' segs ++ (pepAliasStage st ++ natToChars 0)) := by
                    unfold renderPep440
                    cases v.epoch <;> simp [hbase]
                  rw [hrr]
                  obtain ⟨hT1, hT2, hT3⟩ := tail_props_nosep (pepAliasStage st)
                    (natToChars 0) hpane hpaa (natToChars_ne_nil 0) (natToChars_all_digits 0)
                  obtain ⟨E, hP⟩ := parse_render_epochpart v.epoch heps segs
                    (pepAliasStage st ++ natToChars 0) hsne hsegs hT1 hT2
                    (some (pepAliasStage st)) (some (natToChars 0))
                    (fun r' h0 => by
                      injection h0 with h1
                      subst h1
                      exact ⟨natToChars_ne_nil 0, natToChars_all_digits 0⟩)
                    hT3
                  rw [hP, hbase]
                  refine ⟨by simp [Version.make], ?_, ?_⟩
                  · intro st0 hst0
                    injection hst0 with h0
                    subst h0
                    simp [Version.make]
                  · intro st0 r0 hst0 hrv0
                    exact Option.noConfusion hrv0
              | some r =>
                  have hr0 : (0 : Int) ≤ r := hrev r hrvv
                  obtain ⟨hrchne, hrchd⟩ := intToChars_digits hr0
                  rw [hstv]
                  have hrr : renderPep440 v.base (some st) (some r) none none v.epoch [] =
                      (match v.epoch with
                       | some e => intToChars e ++ ['!']
                       | none => ([] : List Char)) ++
                        (joinSep '.' segs ++ (pepAliasStage st ++ intToChars r)) := by
                    unfold renderPep440
                    cases v.epoch <;> simp [hbase]
                  rw [hrr]
                  obtain ⟨hT1, hT2, hT3⟩ := tail_props_nosep (pepAliasStage st)
                    (intToChars r) hpane hpaa hrchne hrchd
                  obtain ⟨E, hP⟩ := parse_render_epochpart v.epoch heps segs
                    (pepAliasStage st ++ intToChars r) hsne hsegs hT1 hT2
                    (some (pepAliasStage st)) (some (intToChars r))
                    (fun r' h0 => by injection h0 with h1; subst h1; exact ⟨hrchne, hrchd⟩)
                    hT3
                  rw [hP, hbase]
                  refine ⟨by simp [Version.make], ?_, ?_⟩
                  · intro st0 hst0
                    injection hst0 with h0
                    subst h0
                    simp [Version.make]
                  · intro st0 r0 hst0 hrv0
                    injection hrv0 with h0
                    subst h0
                    simp [Version.make]
                    exact charsToNat_intToChars hr0
  | SemVer =>
      cases hstv : v.stage with
      | none =>
          have hout := serialize_dist0_semver_plain hd hstv h
          subst hout
          rw [hbase]
          have hP : Version.parse (joinSep '.' segs) =
              Version.make (joinSep '.' segs) none 0 none none none none none none := by
            have hx := parse_wf_noepoch segs [] hsne hsegs baseStop_nil
              (fun c hc => by cases hc) none none (fun r h0 => Option.noConfusion h0)
              matchStageTail_nil
            rwa [List.append_nil] at hx
          rw [hP]
          refine ⟨by simp [Version.make], ?_, ?_⟩
          · intro st0 hst0
            exact Option.noConfusion hst0
          · intro st0 r0 hst0 _
            exact Option.noConfusion hst0
      | some st =>
          obtain ⟨hstne, hsta⟩ := hstage st hstv
          cases hrvv : v.revision with
          | none =>
              have hout := serialize_dist0_semver_stage hd hstv hrvv h
              subst hout
              rw [hbase]
              obtain ⟨hT1, hT2, hT3⟩ := tail_props_sep '-' st [] (by decide) hstne hsta
                none none matchRevTail_nil (fun c hc => by cases hc)
              rw [List.append_nil] at hT1 hT2 hT3
              have hP := parse_wf_noepoch segs ('-' :: st) hsne hsegs hT1 hT2
                (some st) none (fun r h0 => Option.noConfusion h0) hT3
              rw [hP]
              refine ⟨by simp [Version.make], ?_, ?_⟩
              · intro st0 hst0
                injection hst0 with h0
                subst h0
                simp [Version.make]
              · intro st0 r0 hst0 hrv0
                exact Option.noConfusion hrv0
          | some r =>
              have hr0 : (0 : Int) ≤ r := hrev r hrvv
              obtain ⟨hrchne, hrchd⟩ := intToChars_digits hr0
              have hout := serialize_dist0_semver_stagerev hd hstv hrvv h
              subst hout
              rw [hbase]
              obtain ⟨hT1, hT2, hT3⟩ := tail_props_sep '-' st ('.' :: intToChars r)
                (by decide) hstne hsta (some (intToChars r)) none
                (matchRevTail_sep '.' (intToChars r) (by decide) hrchne hrchd)
                (fun c hc => by
                  simp only [List.head?, Option.some.injEq] at hc
                  subst hc
                  decide)
              have hP := parse_wf_noepoch segs ('-' :: (st ++ '.' :: intToChars r)) hsne
                hsegs hT1 hT2 (some st) (some (intToChars r))
                (fun r' h0 => by injection h0 with h1; subst h1; exact ⟨hrchne, hrchd⟩) hT3
              rw [hP]
              refine ⟨by simp [Version.make], ?_, ?_⟩
              · intro st0 hst0
                injection hst0 with h0
                subst h0
                simp [Version.make]
              · intro st0 r0 hst0 hrv0
                injection hrv0 with h0
                subst h0
                simp [Version.make]
                exact charsToNat_intToChars hr0
  | Pvp =>
      cases hstv : v.stage with
      | none =>
          have hout := serialize_dist0_pvp_plain hd hstv h
          subst hout
          rw [hbase]
          have hP : Version.parse (joinSep '.' segs) =
              Version.make (joinSep '.' segs) none 0 none none none none none none := by
            have hx := parse_wf_noepoch segs [] hsne hsegs baseStop_nil
              (fun c hc => by cases hc) none none (fun r h0 => Option.noConfusion h0)
              matchStageTail_nil
            rwa [List.append_nil] at hx
          rw [hP]
          refine ⟨by simp [Version.make], ?_, ?_⟩
          · intro st0 hst0
            exact Option.noConfusion hst0
          · intro st0 r0 hst0 _
            exact Option.noConfusion hst0
      | some st =>
          obtain ⟨hstne, hsta⟩ := hstage st hstv
          cases hrvv : v.revision with
          | none =>
              have hout := serialize_dist0_pvp_stage hd hstv hrvv h
              subst hout
              rw [hbase]
              obtain ⟨hT1, hT2, hT3⟩ := tail_props_sep '-' st [] (by decide) hstne hsta
                none none matchRevTail_nil (fun c hc => by cases hc)
              rw [List.append_nil] at hT1 hT2 hT3
              have hP := parse_wf_noepoch segs ('-' :: st) hsne hsegs hT1 hT2
                (some st) none (fun r h0 => Option.noConfusion h0) hT3
              rw [hP]
              refine ⟨by simp [Version.make], ?_, ?_⟩
              · intro st0 hst0
                injection hst0 with h0
                subst h0
                simp [Version.make]
              · intro st0 r0 hst0 hrv0
                exact Option.noConfusion hrv0
          | some r =>
              have hr0 : (0 : Int) ≤ r := hrev r hrvv
              obtain ⟨hrchne, hrchd⟩ := intToChars_digits hr0
              have hout := serialize_dist0_pvp_stagerev hd hstv hrvv h
              subst hout
              rw [hbase]
              obtain ⟨hT1, hT2, hT3⟩ := tail_props_sep '-' st ('-' :: intToChars r)
                (by decide) hstne hsta (some (intToChars r)) none
                (matchRevTail_sep '-' (intToChars r) (by decide) hrchne hrchd)
                (fun c hc => by
                  simp only [List.head?, Option.some.injEq] at hc
                  subst hc
                  decide)
              have hP := parse_wf_noepoch segs ('-' :: (st ++ '-' :: intToChars r)) hsne
                hsegs hT1 hT2 (some st) (some (intToChars r))
                (fun r' h0 => by injection h0 with h1; subst h1; exact ⟨hrchne, hrchd⟩) hT3
              rw [hP]
              refine ⟨by simp [Version.make], ?_, ?_⟩
              · intro st0 hst0
                injection hst0 with h0
                subst h0
                simp [Version.make]
              · intro st0 r0 hst0 hrv0
                injection hrv0 with h0
                subst h0
                simp [Version.make]
                exact charsToNat_intToChars hr0

/-- Witness for C1's amended statement: Version("1.2.3", stage
("alpha", 1)) serialized in SemVer style round-trips through parse. -/
theorem c1_parse_serialize_roundtrip_witness :
    (Version.parse "1.2.3-alpha.1".toList).base =
        (Version.make "1.2.3".toList (some ("alpha".toList, some 1)) 0 none none none
          none none none).base ∧
    (∀ st, (Version.make "1.2.3".toList (some ("alpha".toList, some 1)) 0 none none none
          none none none).stage = some st →
      (Version.parse "1.2.3-alpha.1".toList).stage =
        some (if Style.SemVer = Style.Pep440 then pepAliasStage st else st)) ∧
    (∀ st r, (Version.make "1.2.3".toList (some ("alpha".toList, some 1)) 0 none none none
          none none none).stage = some st →
      (Version.make "1.2.3".toList (some ("alpha".toList, some 1)) 0 none none none
          none none none).revision = some r →
      (Version.parse "1.2.3-alpha.1".toList).revision = some r) :=
  c1_parse_serialize_roundtrip
    (Version.make "1.2.3".toList (some ("alpha".toList, some 1)) 0 none none none
      none none none)
    Style.SemVer [['1'], ['2'], ['3']] "1.2.3-alpha.1".toList
    rfl (by decide) (by decide) (by decide)
    (fun st hst => by
      have h0 : some "alpha".toList = some st := hst
      injection h0 with h1
      subst h1
      exact ⟨by decide, by decide⟩)
    (fun r hr => by
      have h0 : some (1 : Int) = some r := hr
      injection h0 with h1
      subst h1
      decide)
    (fun e he => Option.noConfusion (show (none : Option Int) = some e from he))
    (fun hS => absurd hS (by decide))
    (by decide)

/-- C1 counterexample: the original claim fails in several ways — a
positive distance changes the PEP 440 rendering so that parse returns
the whole string as base; a PEP 440 stage is alias-normalized, so
"alpha" comes back as "a"; a SemVer stage label containing a digit is
split by the parser into stage and revision; a negative revision makes
the SemVer rendering unparsable; and a base that itself contains a
stage-like suffix is split by the parser. -/
theorem c1_counterexample :
    (Version.serialize (Version.make "1.0.0".toList none 3 none none none none none none)
        none false none (some Style.Pep440) false false =
          Except.ok "1.0.0.post3.dev0".toList ∧
      ((Version.parse "1.0.0.post3.dev0".toList).base == "1.0.0".toList) = false) ∧
    (Version.serialize (Version.make "1.2.3".toList (some ("alpha".toList, some 1)) 0
          none none none none none none) none false none (some Style.Pep440) false false =
        Except.ok "1.2.3a1".toList ∧
      ((Version.parse "1.2.3a1".toList).stage == some "alpha".toList) = false) ∧
    (Version.serialize (Version.make "1.2.3".toList (some ("rc1".toList, none)) 0
          none none none none none none) none false none (some Style.SemVer) false false =
        Except.ok "1.2.3-rc1".toList ∧
      ((Version.parse "1.2.3-rc1".toList).stage == some "rc1".toList) = false) ∧
    (Version.serialize (Version.make "1.2.3".toList (some ("a".toList, some (-1))) 0
          none none none none none none) none false none (some Style.SemVer) false false =
        Except.ok "1.2.3-a.-1".toList ∧
      ((Version.parse "1.2.3-a.-1".toList).base == "1.2.3".toList) = false) ∧
    (Version.serialize (Version.make "1.2.3.dev0".toList none 0 none none none none
          none none) none false none (some Style.Pep440) false false =
        Except.ok "1.2.3.dev0".toList ∧
      ((Version.parse "1.2.3.dev0".toList).base == "1.2.3.dev0".toList) = false) := by
  decide

/-- C7 counterexample: the stage label "RC" is outside the alias table,
yet it does not pass through unchanged — the serializer lowercases it,
rendering "1.2.3rc0" rather than "1.2.3RC0". -/
theorem c7_counterexample :
    serialize_pep440 "1.2.3".toList (some "RC".toList) none none none none [] =
        Except.ok "1.2.3rc0".toList ∧
      ("1.2.3rc0".toList == "1.2.3RC0".toList) = false := by
  decide

end Dunamai

section Scratch
open Dunamai
example : bump_version "1.2.3".toList (-1) = Except.ok "1.2.4".toList := by decide
example : bump_version "1.2.3".toList 0 = Except.ok "2.0.0".toList := by decide
example : bump_version "1.2.3".toList 1 = Except.ok "1.3.0".toList := by decide
example : bump_version "1.a.3".toList 1 = Except.error PyError.valueError := by decide
example : bump_version "1.2.3".toList 3 = Except.error PyError.indexError := by decide
example : bump_version "1.2.3".toList (-2) = Except.ok "1.3.0".toList := by decide

example :
    Version.parse "0.3.0a3+d7.gb6a9020.dirty".toList =
      Version.make "0.3.0".toList (some ("a".toList, some 3)) 7 (some "b6a9020".toList)
        (some true) none none none none := by decide

example : (Version.parse "1.2.3".toList).base = "1.2.3".toList := by decide
example : (Version.parse "foo bar".toList).base = "foo bar".toList := by decide
example : check_version "1.2.3-01".toList Style.SemVer = Except.error PyError.valueError := by decide
example : check_version "1.2.3-1".toList Style.SemVer = Except.ok () := by decide
example : check_version "1.2.3rc4".toList Style.Pep440 = Except.ok () := by decide
example : check_version "1.2.3RC4".toList Style.Pep440 = Except.error PyError.valueError := by decide
example :
    Version.serialize (Version.make "1.0.0".toList none 3 none none none none none none)
      none false none (some Style.Pep440) false false = Except.ok "1.0.0.post3.dev0".toList := by decide
example :
    Version.serialize (Version.make "1.0.0".toList (some ("rc".toList, some 1)) 2 none none none none none none)
      none false none (some Style.SemVer) false false = Except.ok "1.0.0-rc.1.post.2".toList := by decide
example :
    serialize_pep440 "1.2.3".toList (some "RC".toList) none none none none [] =
      Except.ok "1.2.3rc0".toList := by decide
end Scratch
